import Mathlib

/-!
Verification of the matching/gating pipeline of the "Abrechnungshelfer Medizin"
backend (server.js, the variant with the 5-minute pending-session cache, the
deterministic blood-draw block and the soft response validation).

JavaScript strings are modelled as lists of Unicode code points (`JStr`).
The character-level operations (`toLowerCase`, NFKD decomposition, the `\w`
and `\s` character classes) are modelled on the character repertoire the
program's data and regexes actually distinguish: ASCII, the German letters
Ä/Ö/Ü/ä/ö/ü/ß/ẞ, and a small set of Latin-1 accented letters.  All other code
points are carried through unchanged.  Every definition is executable, so each
theorem can be evaluated on concrete inputs.
-/

/-- JavaScript string, as the list of its code points. -/
abbrev JStr := List Nat

/-- Converts a Lean string literal into the `JStr` model. -/
def jstr (s : String) : JStr := s.data.map (fun c => c.toNat)

/-- Membership in the JavaScript `\w` class `[A-Za-z0-9_]` (no `u` flag, so ASCII only). -/
def isWordCh (c : Nat) : Bool :=
  (48 ≤ c && c ≤ 57) || (65 ≤ c && c ≤ 90) || (97 ≤ c && c ≤ 122) || c == 95

/-- Membership in the JavaScript `\s` class (ASCII whitespace, NBSP, BOM and the
common Unicode space separators). -/
def isWsCh (c : Nat) : Bool :=
  (9 ≤ c && c ≤ 13) || c == 32 || c == 160 || c == 5760 ||
  (8192 ≤ c && c ≤ 8202) || c == 8232 || c == 8233 || c == 8239 || c == 8287 ||
  c == 12288 || c == 65279

/-- Membership in the JavaScript `\d` class `[0-9]`. -/
def isDigitCh (c : Nat) : Bool := 48 ≤ c && c ≤ 57

/-- Membership in `[a-z]` (with the `i` flag this also admits `A-Z`). -/
def isAsciiLetter (c : Nat) : Bool := (97 ≤ c && c ≤ 122) || (65 ≤ c && c ≤ 90)

/-- Character-level model of `String.prototype.toLowerCase`: ASCII `A-Z`,
`Ä/Ö/Ü → ä/ö/ü`, `ẞ → ß`, and the Latin-1 uppercase accented letters used in
catalog titles; all other code points are fixed. -/
def jsLowerCh (c : Nat) : Nat :=
  if 65 ≤ c && c ≤ 90 then c + 32
  else if c == 196 then 228      -- Ä → ä
  else if c == 214 then 246      -- Ö → ö
  else if c == 220 then 252      -- Ü → ü
  else if c == 7838 then 223     -- ẞ → ß
  else if c == 201 then 233      -- É → é
  else if c == 200 then 232      -- È → è
  else if c == 193 then 225      -- Á → á
  else if c == 192 then 224      -- À → à
  else c

/-- Lowercases a JS string (`s.toLowerCase()`). -/
def jsLower (s : JStr) : JStr := s.map jsLowerCh

/-- Character-level model of `.replace(/[ä]/g,"ae").replace(/[ö]/g,"oe").replace(/[ü]/g,"ue").replace(/[ß]/g,"ss")`
(the German digraph folding applied after lowercasing). -/
def foldCh (c : Nat) : JStr :=
  if c == 228 then [97, 101]        -- ä → ae
  else if c == 246 then [111, 101]  -- ö → oe
  else if c == 252 then [117, 101]  -- ü → ue
  else if c == 223 then [115, 115]  -- ß → ss
  else [c]

/-- Folds the German umlauts/ß of a string into digraphs. -/
def foldStr (s : JStr) : JStr := s.flatMap foldCh

/-- Character-level model of `.normalize("NFKD").replace(/[̀-ͯ]/g,"")`:
precomposed accented Latin-1 letters lose their combining mark, combining marks
are dropped, everything else is fixed.  (The umlauts/ß never reach this stage in
the normalizers below because the digraph folding runs first.) -/
def nfkdStripCh (c : Nat) : JStr :=
  if 768 ≤ c && c ≤ 879 then []     -- combining diacritical marks, stripped
  else if c == 233 then [101]       -- é → e
  else if c == 232 then [101]       -- è → e
  else if c == 225 then [97]        -- á → a
  else if c == 224 then [97]        -- à → a
  else if c == 226 then [97]        -- â → a
  else if c == 234 then [101]       -- ê → e
  else [c]

/-- Applies NFKD decomposition followed by combining-mark removal. -/
def nfkdStrip (s : JStr) : JStr := s.flatMap nfkdStripCh

/-- Model of `.replace(/[^\w\s]/g, " ")`: anything outside `\w` and `\s` becomes a space. -/
def punctToSpaceCh (c : Nat) : Nat := if isWordCh c || isWsCh c then c else 32

/-- Model of `.replace(/[^a-z0-9\s]/g, " ")` (the variant used by `mapToCanonicalPayer`). -/
def strictToSpaceCh (c : Nat) : Nat :=
  if (97 ≤ c && c ≤ 122) || (48 ≤ c && c ≤ 57) || isWsCh c then c else 32

/-- Worker for `collapseWs`; the flag records whether the previous character was
whitespace (in which case further whitespace is absorbed into the same run). -/
def collapseWsAux : Bool → JStr → JStr
  | _, [] => []
  | prevWs, c :: cs =>
    if isWsCh c then
      if prevWs then collapseWsAux true cs else 32 :: collapseWsAux true cs
    else c :: collapseWsAux false cs

/-- Model of `.replace(/\s+/g, " ")`: each maximal whitespace run becomes one space. -/
def collapseWs (s : JStr) : JStr := collapseWsAux false s

/-- Model of `String.prototype.trim`. -/
def jsTrim (s : JStr) : JStr :=
  ((s.dropWhile isWsCh).reverse.dropWhile isWsCh).reverse

/-- Embeds `normalizeInput` (server.js): lowercase, fold umlauts/ß, collapse
whitespace, trim.  Punctuation and foreign diacritics are kept. -/
def normalizeInput (s : JStr) : JStr :=
  jsTrim (collapseWs (foldStr (jsLower s)))

/-- Embeds `norm` (server.js): lowercase, fold umlauts/ß, NFKD + strip combining
marks, replace non-word/non-space characters by spaces, collapse whitespace, trim. -/
def norm (s : JStr) : JStr :=
  jsTrim (collapseWs ((nfkdStrip (foldStr (jsLower s))).map punctToSpaceCh))

/-- Embeds the local normalization inside `mapToCanonicalPayer` (server.js):
lowercase, fold umlauts/ß, NFKD + strip, replace everything outside `[a-z0-9\s]`
by spaces, collapse whitespace, trim. -/
def payerNorm (s : JStr) : JStr :=
  jsTrim (collapseWs ((nfkdStrip (foldStr (jsLower s))).map strictToSpaceCh))

example : norm (jstr "Blutentnahme  aus der Vene!") = jstr "blutentnahme aus der vene" := by decide
example : norm (jstr "Blutabnähme") = jstr "blutabnaehme" := by decide
example : normalizeInput (jstr "  ÖGK  ") = jstr "oegk" := by decide
example : payerNorm (jstr "ÖGK") = jstr "oegk" := by decide

/-! ### Regex-fragment primitives

The program only uses regexes built from literal alternatives, optionally
word-bounded (`\b`), plus a handful of special shapes that are embedded
individually below.  `\b` between a word character and a non-word character (or
a string end) holds; every pattern the program bounds with `\b` starts and ends
with a word character, so a bounded occurrence is an occurrence whose neighbour
characters (when they exist) are non-word. -/

/-- Tests whether `pat` is a prefix of `s`. -/
def prefixAt : JStr → JStr → Bool
  | [], _ => true
  | _ :: _, [] => false
  | p :: ps, c :: cs => p == c && prefixAt ps cs

/-- Model of `s.includes(pat)` / an unanchored literal regex test. -/
def containsSub (pat : JStr) : JStr → Bool
  | [] => prefixAt pat []
  | c :: cs => prefixAt pat (c :: cs) || containsSub pat cs

/-- True when the previous character (if any) is not a word character. -/
def boundaryPrev : Option Nat → Bool
  | none => true
  | some p => !isWordCh p

/-- True when the character right after a `pat`-occurrence at the head of `s`
(if any) is not a word character. -/
def boundaryAfter (pat s : JStr) : Bool :=
  match s.drop pat.length with
  | [] => true
  | d :: _ => !isWordCh d

/-- Worker for `containsWord`, carrying the previous character. -/
def containsWordAux (pat : JStr) : Option Nat → JStr → Bool
  | _, [] => false
  | prev, c :: cs =>
    (boundaryPrev prev && prefixAt pat (c :: cs) && boundaryAfter pat (c :: cs)) ||
    containsWordAux pat (some c) cs

/-- Model of `/\bpat\b/.test(s)` for a literal `pat` starting and ending in word
characters. -/
def containsWord (pat s : JStr) : Bool := containsWordAux pat none s

/-- Worker for `containsLB`. -/
def containsLBAux (pat : JStr) : Option Nat → JStr → Bool
  | _, [] => false
  | prev, c :: cs =>
    (boundaryPrev prev && prefixAt pat (c :: cs)) || containsLBAux pat (some c) cs

/-- Model of `/\bpat/.test(s)` (left word boundary only). -/
def containsLB (pat s : JStr) : Bool := containsLBAux pat none s

/-- Model of `/pat\b/.test(s)` (right word boundary only). -/
def containsRB (pat : JStr) : JStr → Bool
  | [] => false
  | c :: cs => (prefixAt pat (c :: cs) && boundaryAfter pat (c :: cs)) || containsRB pat cs

/-- Tests a regex alternation of unanchored literals. -/
def containsAnySub (pats : List JStr) (s : JStr) : Bool := pats.any (fun p => containsSub p s)

/-- Tests a regex alternation of word-bounded literals, `/\b(p1|p2|…)\b/`. -/
def containsAnyWord (pats : List JStr) (s : JStr) : Bool := pats.any (fun p => containsWord p s)

/-- Worker for `replaceWordAll`, with fuel for structural recursion (the fuel is
always at least the string length, and each step consumes at least one
character). -/
def replaceWordAllFuel (w : JStr) : Nat → Option Nat → JStr → JStr
  | 0, _, s => s
  | _ + 1, _, [] => []
  | fuel + 1, prev, c :: cs =>
    if w.isEmpty then c :: cs
    else if boundaryPrev prev && prefixAt w (c :: cs) && boundaryAfter w (c :: cs) then
      32 :: replaceWordAllFuel w fuel (some (w.getLastD 0)) ((c :: cs).drop w.length)
    else c :: replaceWordAllFuel w fuel (some c) cs

/-- Model of `s.replace(new RegExp("\\b" + w + "\\b", "g"), " ")`: every
word-bounded occurrence of `w` (non-overlapping, left to right, boundaries taken
in the original string) becomes a single space. -/
def replaceWordAll (w s : JStr) : JStr := replaceWordAllFuel w s.length none s

/-- Worker for `wordsOf`: splits into maximal runs of `\w` characters. -/
def wordsOfAux (cur : JStr) : JStr → List JStr
  | [] => if cur.isEmpty then [] else [cur]
  | c :: cs =>
    if isWordCh c then wordsOfAux (cur ++ [c]) cs
    else if cur.isEmpty then wordsOfAux [] cs
    else cur :: wordsOfAux [] cs

/-- The maximal `\w`-runs of a string, in order. -/
def wordsOf (s : JStr) : List JStr := wordsOfAux [] s

/-- Worker for `splitSpaces`. -/
def splitSpacesAux (cur : JStr) : JStr → List JStr
  | [] => if cur.isEmpty then [] else [cur]
  | c :: cs =>
    if c == 32 then (if cur.isEmpty then splitSpacesAux [] cs else cur :: splitSpacesAux [] cs)
    else splitSpacesAux (cur ++ [c]) cs

/-- Model of `s.split(" ").filter(Boolean)`. -/
def splitSpaces (s : JStr) : List JStr := splitSpacesAux [] s

/-- Model of `Array.prototype.join(sep)`. -/
def joinSep (sep : JStr) : List JStr → JStr
  | [] => []
  | [x] => x
  | x :: xs => x ++ sep ++ joinSep sep xs

/-- Worker for `dedupFirst`. -/
def dedupFirstAux (seen : List JStr) : List JStr → List JStr
  | [] => []
  | x :: xs =>
    if seen.contains x then dedupFirstAux seen xs
    else x :: dedupFirstAux (x :: seen) xs

/-- Model of `Array.from(new Set(xs))`: keeps the first occurrence of each string. -/
def dedupFirst (xs : List JStr) : List JStr := dedupFirstAux [] xs

example : containsWord (jstr "min") (jstr "5 min heute") = true := by decide
example : containsWord (jstr "minute") (jstr "20 minuten") = false := by decide
example : containsSub (jstr "min") (jstr "20 minuten") = true := by decide
example : wordsOf (jstr "Copy-Paste-Liste: 1C; 300") = [jstr "Copy", jstr "Paste", jstr "Liste", jstr "1C", jstr "300"] := by decide
example : replaceWordAll (jstr "oegk") (jstr " oegk blut ") = jstr "   blut " := by decide

/-! ### Data model and payer detection -/

/-- Embeds a CatalogEntry of `catalogs/index.json` as produced by
`scripts/buildCatalogIndex.js`: `{payer, pos, title, points, notes, source}`. -/
structure Entry where
  payer : JStr
  pos : JStr
  title : JStr
  points : JStr
  notes : JStr
  source : JStr
deriving DecidableEq, Repr

/-- Embeds `mapToCanonicalPayer` (server.js): normalizes the raw payer text and
tries the word-bounded synonym regexes in order; an unrecognized non-empty input
is returned unchanged (`raw || null`, with the empty string as the `null` case,
handled by the callers). -/
def mapToCanonicalPayer (raw : JStr) : JStr :=
  let t := payerNorm raw
  if containsWord (jstr "oegk") t || containsWord (jstr "gesundheitskasse") t ||
     containsWord (jstr "oe gk") t || containsWord (jstr "oesterreichische gesundheitskasse") t then
    jstr "ÖGK"
  else if containsWord (jstr "bvaeb") t || containsWord (jstr "bva") t ||
     containsWord (jstr "beamten") t || containsWord (jstr "eisenbahn") t ||
     containsWord (jstr "bergbau") t then
    jstr "BVAEB"
  else if containsWord (jstr "svs") t || containsWord (jstr "selbststaendigen") t ||
     containsWord (jstr "bauern") t || containsWord (jstr "gewerbe") t then
    jstr "SVS"
  else if containsWord (jstr "kfa") t || containsWord (jstr "krankenfuersorge") t ||
     containsWord (jstr "wiener kfa") t then
    jstr "KFA"
  else if containsWord (jstr "kuf") t then jstr "KUF"
  else if containsWord (jstr "medrech") t then jstr "MEDRECH"
  else raw

/-- Embeds `samePayer` (server.js): false when either side is empty (falsy),
otherwise equality of the canonical forms. -/
def samePayer (a b : JStr) : Bool :=
  if a.isEmpty || b.isEmpty then false
  else mapToCanonicalPayer a == mapToCanonicalPayer b

/-- Embeds the `PAYER_SYNONYMS` table (server.js), in object-insertion order. -/
def PAYER_SYNONYMS : List (JStr × List JStr) :=
  [ (jstr "ÖGK", [jstr "oegk", jstr "ogk", jstr "oe gk", jstr "gesundheitskasse",
      jstr "oesterreichische gesundheitskasse", jstr "krankenkasse"]),
    (jstr "BVAEB", [jstr "bvaeb", jstr "bva", jstr "beamten", jstr "eisenbahn", jstr "bergbau"]),
    (jstr "SVS", [jstr "svs", jstr "selbststaendigen", jstr "bauern", jstr "gewerbe"]),
    (jstr "KFA", [jstr "kfa", jstr "krankenfuerorge", jstr "krankenfuerorgeanstalt",
      jstr "wiener kfa", jstr "krankenfürsorge", jstr "krankenfürsorgeanstalt"]),
    (jstr "KUF", [jstr "kuf"]),
    (jstr "MEDRECH", [jstr "medrech"]) ]

/-- Model of `(" " + n + " ").includes(" " + tok + " ")` used by `extractPayerFromText`. -/
def paddedIncludes (tok n : JStr) : Bool :=
  containsSub (32 :: tok ++ [32]) (32 :: n ++ [32])

/-- Scans the synonym table in order for the first canonical key whose own name
or one of its synonyms occurs space-padded in the normalized text `n`. -/
def payerScan (n : JStr) : List (JStr × List JStr) → Option JStr
  | [] => none
  | (canon, syns) :: rest =>
    if (canon :: syns).any (fun raw => paddedIncludes (norm raw) n) then some canon
    else payerScan n rest

/-- Embeds `extractPayerFromText` (server.js): first canonical key whose own name
or one of its synonyms occurs space-padded in the normalized text. -/
def extractPayerFromText (text : JStr) : Option JStr :=
  payerScan (norm text) PAYER_SYNONYMS

/-- Embeds `extractCanonicalPayer` (server.js). -/
def extractCanonicalPayer (text : JStr) : Option JStr :=
  match extractPayerFromText text with
  | some p => some (mapToCanonicalPayer p)
  | none => none

/-- Embeds `detectPayer` of the simpler server variant (the one built on
`normalizeInput`): fixed priority order, first match wins, `null` otherwise. -/
def detectPayer (text : JStr) : Option JStr :=
  let n := normalizeInput text
  if containsWord (jstr "oegk") n || containsWord (jstr "gesundheitskasse") n ||
     containsWord (jstr "oe gk") n then some (jstr "ÖGK")
  else if containsWord (jstr "bvaeb") n || containsWord (jstr "bva") n then some (jstr "BVAEB")
  else if containsWord (jstr "svs") n then some (jstr "SVS")
  else if containsWord (jstr "kuf") n then some (jstr "KUF")
  else if containsWord (jstr "medrech") n then some (jstr "MEDRECH")
  else none

/-- Matches `ö\s*g\s*k` anywhere (one alternative of `guessPayer`); the argument
is the already-lowercased filename. -/
def containsOeSpGk : JStr → Bool
  | [] => false
  | c :: cs =>
    (c == 246 &&
      (match cs.dropWhile isWsCh with
       | 103 :: r2 =>
         (match r2.dropWhile isWsCh with
          | 107 :: _ => true
          | _ => false)
       | _ => false)) || containsOeSpGk cs

/-- Embeds `guessPayer` (scripts/buildCatalogIndex.js): classifies a catalog PDF
filename into the payer stored on every generated entry. -/
def guessPayer (filename : JStr) : JStr :=
  let fn := jsLower filename
  if containsAnySub [jstr "oegk", jstr "ögk", jstr "oe-gk", jstr "gesundheitskasse",
       jstr "gesamtvertrag", jstr "honorarkatalog"] fn || containsOeSpGk fn then jstr "ÖGK"
  else if containsSub (jstr "bvaeb") fn then jstr "BVAEB"
  else if containsWord (jstr "svs") fn || containsSub (jstr "sozialversicherungsanstalt") fn then jstr "SVS"
  else if containsWord (jstr "kuf") fn || containsSub (jstr "kaernten") fn ||
       containsSub (jstr "kärnten") fn || containsSub (jstr "tirol") fn then jstr "KUF"
  else jstr "UNBEKANNT"

example : mapToCanonicalPayer (jstr "ÖGK") = jstr "ÖGK" := by decide
example : mapToCanonicalPayer (jstr "bva") = jstr "BVAEB" := by decide
example : samePayer (jstr "ÖGK") (jstr "oegk") = true := by decide
example : extractCanonicalPayer (jstr "OEGK Blutentnahme aus der Vene") = some (jstr "ÖGK") := by decide
example : extractCanonicalPayer (jstr "KFA Wien") = some (jstr "KFA") := by decide
example : detectPayer (jstr "BVA ÖGK") = some (jstr "ÖGK") := by decide
example : guessPayer (jstr "Honorarkatalog_OEGK_2024.pdf") = jstr "ÖGK" := by decide

/-! ### Query heuristics -/

/-- Embeds `/\b(min|minute|stunden?|std)\b/.test(norm text)` from `isBareDurationQuery`. -/
def hasDurationWord (t : JStr) : Bool :=
  containsAnyWord [jstr "min", jstr "minute", jstr "stunde", jstr "stunden", jstr "std"] t

/-- Embeds `/\b(gespraech|angehorig|blut|harn|urin|ekg|labor|injek|sonogr|abstrich|check|vorsorge|ordination)\b/.test(norm text)`
from `isBareDurationQuery`. -/
def hasServiceKeyword (t : JStr) : Bool :=
  containsAnyWord [jstr "gespraech", jstr "angehorig", jstr "blut", jstr "harn", jstr "urin",
    jstr "ekg", jstr "labor", jstr "injek", jstr "sonogr", jstr "abstrich", jstr "check",
    jstr "vorsorge", jstr "ordination"] t

/-- Embeds `isBareDurationQuery` (server.js): a duration word is present but no
recognized service keyword. -/
def isBareDurationQuery (text : JStr) : Bool :=
  let t := norm text
  hasDurationWord t && !hasServiceKeyword t

/-- The payer vocabulary removed by `isPayerOnlyQuery`: all synonym values
followed by the canonical keys, each normalized. -/
def payerWordList : List JStr :=
  ((PAYER_SYNONYMS.map Prod.snd).flatten ++ PAYER_SYNONYMS.map Prod.fst).map norm

/-- Embeds `isPayerOnlyQuery` (server.js): after deleting every word-bounded
payer word from the (space-padded) normalized text, nothing is left. -/
def isPayerOnlyQuery (text : JStr) : Bool :=
  let t := norm text
  let without := payerWordList.foldl (fun acc w => replaceWordAll w acc) (32 :: t ++ [32])
  (jsTrim (collapseWs without)).isEmpty

/-- Looks a normalized token up in the synonym table (`SYNONYMS[norm token]`,
loaded from `catalogs/synonyms.json`, empty fallback); the table is a parameter
because the generated artifact is deployment data. -/
def getSynonymsFor (syns : List (JStr × List JStr)) (token : JStr) : List JStr :=
  match syns.find? (fun p => p.1 == norm token) with
  | some p => p.2
  | none => []

/-- Appends `x` unless already present (JS `Set.add` on strings). -/
def addIfAbsent (acc : List JStr) (x : JStr) : List JStr :=
  if acc.contains x then acc else acc ++ [x]

/-- Embeds `expandQueryWithSynonyms` (server.js): the normalized tokens plus the
normalized synonyms of each token, deduplicated in insertion order, re-joined
with spaces. -/
def expandQueryWithSynonyms (syns : List (JStr × List JStr)) (q : JStr) : JStr :=
  let toks := splitSpaces (norm q)
  let expanded := toks.foldl
    (fun acc tok => (getSynonymsFor syns tok).foldl (fun a s => addIfAbsent a (norm s)) acc)
    (dedupFirst toks)
  joinSep [32] expanded

/-- Embeds a rule of `scripts/rules/catalog_rules.json`. -/
structure Rule where
  payer : Option JStr
  whenAll : Option (List JStr)
  whenAny : Option (List JStr)
  prefer : Option (List JStr)
deriving DecidableEq, Repr

/-- Embeds `ruleMatches` (server.js). -/
def ruleMatches (text : JStr) (r : Rule) (payer : Option JStr) : Bool :=
  let payerMismatch :=
    match r.payer, payer with
    | some rp, some p => !rp.isEmpty && !p.isEmpty && rp != p
    | _, _ => false
  if payerMismatch then false
  else
    let t := norm text
    let allOk := match r.whenAll with
      | some ks => ks.all (fun k => containsSub (norm k) t)
      | none => true
    let anyOk := match r.whenAny with
      | some ks => ks.any (fun k => containsSub (norm k) t)
      | none => true
    allOk && anyOk

/-- Embeds `preferredByRules` (server.js): the `prefer` list of the first
matching rule, else empty. -/
def preferredByRules (rules : List Rule) (userText : JStr) (payer : Option JStr) : List JStr :=
  match rules.find? (fun r => ruleMatches userText r payer) with
  | some r => r.prefer.getD []
  | none => []

/-- Embeds `hasVenousFlag` (server.js). -/
def hasVenousFlag (n : JStr) : Bool :=
  containsAnyWord [jstr "venose", jstr "venoese", jstr "venos", jstr "vene",
    jstr "venenpunktion", jstr "venepunktion"] n

/-- Embeds `hasCapillaryFlag` (server.js). -/
def hasCapillaryFlag (n : JStr) : Bool :=
  containsAnyWord [jstr "kapillar", jstr "kapillarblut", jstr "fingerbeere", jstr "ohrlaeppchen"] n

/-- Embeds `bloodIntent` (server.js): blood-draw nouns, or one of the venous or
capillary markers. -/
def bloodIntent (n : JStr) : Bool :=
  containsAnyWord [jstr "blutabnahme", jstr "blutabnahmen", jstr "blutentnahme", jstr "blutentnahmen"] n ||
  hasVenousFlag n || hasCapillaryFlag n

/-- Embeds `ntIncludes` (server.js): normalized-title substring test. -/
def ntIncludes (it : Entry) (needle : JStr) : Bool :=
  containsSub (norm needle) (norm it.title)

/-- Embeds `restrictToBloodDraw` (server.js): keeps entries whose normalized
title contains one of the blood-draw patterns. -/
def restrictToBloodDraw (items : List Entry) : List Entry :=
  let pats := [jstr "blutabnahme", jstr "blutabnahmen", jstr "blutentnahme", jstr "blutentnahmen",
    jstr "entnahme von blut", jstr "vene", jstr "venoes", jstr "venose", jstr "venoese",
    jstr "kapillar", jstr "kapillarblut", jstr "fingerbeere", jstr "ohrlaeppchen"].map norm
  items.filter (fun it => pats.any (fun p => containsSub p (norm it.title)))

/-- Modelled from the spec: `detectSetting`, the clinic-vs-lab setting detector
called by `findCandidates` and the deterministic blood-draw block, is not
defined anywhere in the sources.  Following the spec's "clinic vs. lab setting"
vocabulary (and the in-repo `\b(ord|ordination|labor)\b` checks), it flags
`inOrd` when the normalized text names the practice and `inLab` when it names
the laboratory. -/
def detectSettingSpec (n : JStr) : Bool × Bool :=
  (containsAnyWord [jstr "ord", jstr "ordination"] n, containsWord (jstr "labor") n)

/-- The payer filter `x => !payer || samePayer(x.payer, payer)` (empty string is
falsy, so an empty payer disables the filter). -/
def payerPred (payer : Option JStr) (x : Entry) : Bool :=
  match payer with
  | none => true
  | some p => p.isEmpty || samePayer x.payer p

example : isBareDurationQuery (jstr "über 20 Minuten") = false := by decide
example : isBareDurationQuery (jstr "5 min") = true := by decide
example : isPayerOnlyQuery (jstr "ÖGK") = true := by decide
example : isPayerOnlyQuery (jstr "OEGK Blutentnahme aus der Vene") = false := by decide
example : bloodIntent (norm (jstr "Blutentnahme aus der Vene")) = true := by decide

/-! ### Candidate finder -/

/-- Stable descending insertion for the overlap sort (`sort((a,b) => b.overlap - a.overlap)`,
JS `Array.prototype.sort` being stable): an element goes after every element
with an overlap at least as large. -/
def insOverlap (x : Entry × Nat) : List (Entry × Nat) → List (Entry × Nat)
  | [] => [x]
  | y :: ys => if y.2 < x.2 then x :: y :: ys else y :: insOverlap x ys

/-- Stable sort by overlap, descending. -/
def sortOverlapDesc (l : List (Entry × Nat)) : List (Entry × Nat) :=
  l.foldl (fun acc x => insOverlap x acc) []

/-- Embeds the token-overlap fallback of `findCandidates` (server.js): tokens of
the expanded query longer than 2, counted as substrings of the normalized title;
entries with positive overlap, sorted by overlap descending (stable). -/
def overlapFallback (items : List Entry) (expandedQuery : JStr) : List Entry :=
  let toks := dedupFirst ((splitSpaces expandedQuery).filter (fun t => 2 < t.length))
  let scored := items.map (fun it => (it, toks.countP (fun t => containsSub t (norm it.title))))
  (sortOverlapDesc (scored.filter (fun x => 0 < x.2))).map Prod.fst

/-- The type of the fuzzy-search collaborator (`new Fuse(items, …).search(q).map(r => r.item)`,
a third-party library): items of the given pool, ranked for the query. -/
abbrev FuseFn := List Entry → JStr → List Entry

/-- Contract of the fuzzy-search collaborator: it only returns entries drawn
from the pool it was constructed over. -/
def FuseSpec (fs : FuseFn) : Prop :=
  ∀ items q e, e ∈ fs items q → e ∈ items

/-- Fuzzy-search stand-in that finds nothing, exercising the overlap fallback;
used to instantiate concrete runs. -/
def fuseNone : FuseFn := fun _ _ => []

/-- The setting filter shared by `findCandidates` and the deterministic
blood-draw block: practice-only queries drop entries whose title matches
`/\blabor\b/i`, laboratory-only queries keep exactly those. -/
def settingFilter (setting : Bool × Bool) (items : List Entry) : List Entry :=
  if setting.1 && !setting.2 then
    items.filter (fun it => !containsWord (jstr "labor") (jsLower it.title))
  else if setting.2 && !setting.1 then
    items.filter (fun it => containsWord (jstr "labor") (jsLower it.title))
  else items

/-- The psych guard of `findCandidates`: unless the text looks psych-related,
entries with psych-related titles are dropped. -/
def psychFilter (nt : JStr) (items : List Entry) : List Entry :=
  if containsAnySub [jstr "psycho", jstr "depress", jstr "angst",
      jstr "krisenintervention", jstr "psychothera", jstr "psychiatr"] nt then items
  else items.filter (fun it =>
    !containsAnySub [jstr "psych", jstr "psychiatr", jstr "psychothera"] (jsLower it.title))

/-- The pool `findCandidates` searches over: payer filter, setting filter,
psych guard, blood-draw restriction and the injection exclusion. -/
def findCandidatesPool (ds : JStr → Bool × Bool) (catalog : List Entry) (userText : JStr)
    (payer : Option JStr) : List Entry :=
  let items0 := catalog.filter (payerPred payer)
  let items1 := settingFilter (ds (norm userText)) items0
  let nt := norm userText
  let items2 := psychFilter nt items1
  let items3 := if bloodIntent nt then restrictToBloodDraw items2 else items2
  if bloodIntent nt && !(containsLB (jstr "injek") nt || containsRB (jstr "spritze") nt) then
    items3.filter (fun it => !containsSub (jstr "injektion") (jsLower it.title))
  else items3

/-- Embeds `findCandidates` (server.js, the variant with the blood-draw
narrowing): pool building (payer filter, setting filter, psych guard, blood
narrowing), deterministic exact-first shortcuts, fuzzy search with overlap
fallback, rule-preferred reordering, final blood restriction, truncation to
`limit`.  The fuzzy matcher `fs`, the setting detector `ds`, the synonym table
and the rule table are parameters. -/
def findCandidates (fs : FuseFn) (ds : JStr → Bool × Bool) (syns : List (JStr × List JStr))
    (rules : List Rule) (catalog : List Entry) (userText : JStr) (payer : Option JStr)
    (limit : Nat := 12) : List Entry :=
  let nt := norm userText
  let preferCodes := preferredByRules rules userText payer
  let intentIsBlood := bloodIntent nt
  let vFlag := hasVenousFlag nt
  let kFlag := hasCapillaryFlag nt
  let items4 := findCandidatesPool ds catalog userText payer
  match (if intentIsBlood && vFlag then
           items4.find? (fun it => ntIncludes it (jstr "blutentnahme aus der vene"))
         else none) with
  | some e => [e].take limit
  | none =>
  match (if intentIsBlood && kFlag then items4.find? (fun it => ntIncludes it (jstr "kapillar"))
         else none) with
  | some e => [e].take limit
  | none =>
    let expandedQuery := expandQueryWithSynonyms syns userText
    let found0 := fs items4 expandedQuery
    let found1 := if found0.isEmpty then overlapFallback items4 expandedQuery else found0
    let found2 :=
      if !preferCodes.isEmpty then
        found1.filter (fun x => preferCodes.contains x.pos) ++
        found1.filter (fun x => !preferCodes.contains x.pos)
      else found1
    let found3 := if intentIsBlood then restrictToBloodDraw found2 else found2
    found3.take limit

/-- Embeds `findByTitleContains` (server.js): first payer-matching entry whose
normalized title contains one of the normalized patterns. -/
def findByTitleContains (catalog : List Entry) (payer : Option JStr) (patterns : List JStr) :
    Option Entry :=
  let pats := patterns.map norm
  (catalog.filter (payerPred payer)).find? (fun it => pats.any (fun p => containsSub p (norm it.title)))

/-- Embeds `deriveAddOns` (server.js): first-visit fee + coordination surcharge,
report fee, and long-ECG strip, each triggered by its keyword test. -/
def deriveAddOns (catalog : List Entry) (userText : JStr) (payer : Option JStr) : List Entry :=
  let t := norm userText
  let add1 :=
    if containsAnySub [jstr "erst", jstr "erstord", jstr "erstvorstellung"] t ||
       containsRB (jstr "neu") t || containsSub (jstr "neu-patient") t then
      (match findByTitleContains catalog payer [jstr "erstordination"] with
       | some eo => [eo] | none => []) ++
      (match findByTitleContains catalog payer [jstr "koordinationszuschlag", jstr "koordination"] with
       | some kz => [kz] | none => [])
    else []
  let add2 :=
    if containsAnySub [jstr "befund", jstr "bericht", jstr "arztbrief"] t then
      match findByTitleContains catalog payer [jstr "befundbericht", jstr "befund-bericht", jstr "bericht"] with
      | some bb => [bb] | none => []
    else []
  let add3 :=
    if containsSub (jstr "ekg") t &&
       containsAnySub [jstr "lang", jstr "streifen", jstr "verl", jstr "minute", jstr "min",
         jstr "24", jstr "holter"] t then
      match findByTitleContains catalog payer [jstr "langer ekg", jstr "ekg lang",
        jstr "langstreifen", jstr "verlangerter ekg"] with
      | some ls => [ls] | none => []
    else []
  add1 ++ add2 ++ add3

/-- Embeds `mergeCandidates` (server.js): appends each add-on whose position
code is not yet present. -/
def mergeCandidates (candidates addOns : List Entry) : List Entry :=
  (addOns.foldl
    (fun acc it =>
      if acc.2.contains it.pos then acc else (acc.1 ++ [it], it.pos :: acc.2))
    (candidates, candidates.map Entry.pos)).1

/-! ### Clarification messages and the early-question heuristic -/

/-- Response to `{prompt: ""}` (400). -/
def missingPromptMsg : JStr := jstr "Fehlendes Feld: prompt"

/-- Clarification of the bare-duration guard. -/
def bareDurationMsg : JStr :=
  jstr "Rückfrage: Worum geht es genau? (z. B. Angehörigengespräch, Blutabnahme, EKG, Injektion …) Bitte kurz präzisieren."

/-- Clarification of the payer-only guard, parameterized by the detected payer. -/
def payerOnlyMsg (payer : JStr) : JStr :=
  jstr "Rückfrage: Welche **Leistung** ist gemeint? (z. B. „Blutabnahme venös“ oder „Blutabnahme kapillar“) — Träger erkannt: **" ++
  payer ++ jstr "**."

/-- Generic clarification used when no candidates were found. -/
def unclearMsg : JStr :=
  jstr "Unklar. Bitte die gewünschte Leistung genauer beschreiben (z. B. Träger, Technik, Dauer, Art)."

/-- Error body of the empty-candidates 400 response. -/
def noCandidatesMsg : JStr :=
  jstr "Keine passenden Katalogeinträge gefunden. Bitte präziser eingeben (z. B. „ÖGK, Blutentnahme aus der Vene“)."

/-- Question about venous vs. capillary blood draw. -/
def qVenKap : JStr := jstr "War es eine **venöse** oder **kapillare** Blutentnahme?"

/-- Question asking for the payer. -/
def qPayer : JStr := jstr "Bitte gib den **Versicherungsträger** an (z. B. ÖGK, BVAEB, SVS)."

/-- Question about the duration of a relative-discussion. -/
def qGespraech : JStr :=
  jstr "Wie lange hat das Angehörigengespräch gedauert? (**bis 20 Minuten** / **über 20 Minuten**)"

/-- Question about the urine-test setting. -/
def qHarn : JStr := jstr "Meinst du **Harnstreifentest in der Ordination** oder **Laboruntersuchung**?"

/-- Additional payer question of the urine branch. -/
def qPayerExtra : JStr := jstr "Bitte zusätzlich den **Versicherungsträger** angeben."

/-- True when an optional payer string is truthy in the JS sense. -/
def payerTruthy : Option JStr → Bool
  | some p => !p.isEmpty
  | none => false

/-- Embeds `earlyQuestion` (server.js, the variant taking the detected payer):
collects the questions triggered by missing blood-draw specificity, missing
payer, missing discussion duration and missing urine-test setting, joined by a
space; `null` when none triggers. -/
def earlyQuestion (userText : JStr) (payerDetected : Option JStr) : Option JStr :=
  let n := norm userText
  let intent := bloodIntent n
  let vFlag := hasVenousFlag n
  let kFlag := hasCapillaryFlag n
  let missingPayer := !payerTruthy payerDetected
  let qs1 := if intent && !vFlag && !kFlag then [qVenKap] else []
  let qs2 := if intent && missingPayer then [qPayer] else []
  let qs3 :=
    if containsAnyWord [jstr "gespraech", jstr "angehoerig"] n &&
       !containsAnyWord [jstr "min", jstr "minute", jstr "stunde", jstr "stunden", jstr "std",
         jstr "ueber 20", jstr "bis 20"] n then [qGespraech] else []
  let qs4 :=
    if containsAnyWord [jstr "harn", jstr "urin", jstr "streifen"] n &&
       !containsAnyWord [jstr "ord", jstr "ordination", jstr "labor"] n then
      qHarn :: (if missingPayer then [qPayerExtra] else [])
    else []
  let questions := qs1 ++ qs2 ++ qs3 ++ qs4
  if questions.isEmpty then none else some (joinSep [32] questions)

/-! ### The pending-session store (follow-up context, 5 minutes) -/

/-- Time-to-live of a pending prompt: `5 * 60 * 1000` milliseconds. -/
def FOLLOWUP_TTL_MS : Nat := 5 * 60 * 1000

/-- The session store `Map`, as an association list in insertion order with
unique keys: session key ↦ (pending prompt, timestamp). -/
abbrev SessionStore := List (JStr × JStr × Nat)

/-- Model of `sessionStore.get(key)`. -/
def storeGet (store : SessionStore) (key : JStr) : Option (JStr × Nat) :=
  (store.find? (fun e => e.1 == key)).map Prod.snd

/-- Model of `sessionStore.set(key, {prompt, ts})`: updates in place or appends. -/
def storeSet (key prompt : JStr) (ts : Nat) : SessionStore → SessionStore
  | [] => [(key, prompt, ts)]
  | e :: rest => if e.1 == key then (key, prompt, ts) :: rest else e :: storeSet key prompt ts rest

/-- Model of `sessionStore.delete(key)`. -/
def storeDelete (key : JStr) : SessionStore → SessionStore
  | [] => []
  | e :: rest => if e.1 == key then rest else e :: storeDelete key rest

/-- Embeds `getPendingPrompt` (server.js): returns the stored prompt when it is
younger than the TTL (`Date.now() - s.ts < FOLLOWUP_TTL_MS`, i.e.
`now < ts + TTL`); otherwise deletes the entry and returns nothing. -/
def getPendingPrompt (now : Nat) (key : JStr) (store : SessionStore) : Option JStr × SessionStore :=
  match storeGet store key with
  | some (p, ts) =>
    if now < ts + FOLLOWUP_TTL_MS then (some p, store) else (none, storeDelete key store)
  | none => (none, storeDelete key store)

/-- Embeds `setPendingPrompt` (server.js). -/
def setPendingPrompt (key prompt : JStr) (now : Nat) (store : SessionStore) : SessionStore :=
  storeSet key prompt now store

/-- Embeds `clearPendingPrompt` (server.js). -/
def clearPendingPrompt (key : JStr) (store : SessionStore) : SessionStore :=
  storeDelete key store

/-- Embeds the follow-up merge step of the handler: a live pending prompt is
prepended (`` `${pending} ${userInput}`.trim() ``) and the entry cleared;
otherwise the input passes through (with an expired entry already deleted by
`getPendingPrompt`). -/
def followupMerge (now : Nat) (key input : JStr) (store : SessionStore) : JStr × SessionStore :=
  match getPendingPrompt now key store with
  | (some pending, st1) => (jsTrim (pending ++ [32] ++ input), clearPendingPrompt key st1)
  | (none, st1) => (input, st1)

/-! ### The /api/abrechnen handler up to the external call -/

/-- Outcome of the handler before any external model call: a 4xx error body, a
200 `{output}` produced locally (clarification or deterministic table), or the
candidate list and merged input that proceed to the external model. -/
inductive Outcome where
  | badRequest (msg : JStr)
  | reply (output : JStr)
  | needModel (candidates : List Entry) (input : JStr)
deriving DecidableEq, Repr

/-- Embeds `/(^|\b)blutentnahme aus der vene(\b|$)/i.test(title)`. -/
def matchVeneTitle (title : JStr) : Bool :=
  containsWord (jstr "blutentnahme aus der vene") (jsLower title)

/-- Embeds `/\b(kapillar|kapillarblut)\b/i.test(title)`. -/
def matchKapTitle (title : JStr) : Bool :=
  containsAnyWord [jstr "kapillar", jstr "kapillarblut"] (jsLower title)

/-- Embeds step 3b of the handler (the deterministic blood-draw block): with
blood intent and a truthy payer, filter by payer and setting, then look for the
exact venous (or capillary) title, with the practice-setting fallback to the
venous title. -/
def bloodDrawExact (ds : JStr → Bool × Bool) (catalog : List Entry) (input : JStr)
    (payer : Option JStr) : Option Entry :=
  let nt := norm input
  let intent := bloodIntent nt
  let vFlag := hasVenousFlag nt
  let kFlag := hasCapillaryFlag nt
  let setting := ds nt
  if intent && payerTruthy payer then
    let items := settingFilter setting (catalog.filter (payerPred payer))
    let exactVene := if vFlag then items.find? (fun it => matchVeneTitle it.title) else none
    let exactKap := if kFlag then items.find? (fun it => matchKapTitle it.title) else none
    match exactVene with
    | some e => some e
    | none =>
      match exactKap with
      | some e => some e
      | none =>
        if intent && setting.1 && !setting.2 then items.find? (fun it => matchVeneTitle it.title)
        else none
  else none

/-- Renders the deterministic single-entry table of step 3b. -/
def renderExact (e : Entry) : JStr :=
  let rows := e.pos ++ jstr " | " ++ e.title ++ jstr " | " ++ e.points ++
    (if e.notes.isEmpty then [] else jstr " | " ++ e.notes)
  jstr "Pos.-Nr | Leistungstext | Punkte/€ | Zusatzinfo\n------- | ------------- | -------- | -----------\n" ++
  rows ++ jstr "\n\nCopy-Paste-Liste: " ++ e.pos

/-- The candidate list used by the request pipeline: `findCandidates` output,
merged with the derived add-ons unless the query has blood intent (steps 3c-4 of
the handler). -/
def pipelineCandidates (fs : FuseFn) (ds : JStr → Bool × Bool) (syns : List (JStr × List JStr))
    (rules : List Rule) (catalog : List Entry) (input : JStr) (payer : Option JStr) : List Entry :=
  let candidates := findCandidates fs ds syns rules catalog input payer 12
  if bloodIntent (norm input) then candidates
  else mergeCandidates candidates (deriveAddOns catalog input payer)

/-- Embeds the `/api/abrechnen` handler (server.js) from input validation up to
the external model call (the configuration is assumed present; the
authentication middleware is outside this model).  Returns the outcome together
with the updated session store. -/
def handleAbrechnen (fs : FuseFn) (ds : JStr → Bool × Bool) (syns : List (JStr × List JStr))
    (rules : List Rule) (catalog : List Entry) (now : Nat) (key : JStr) (store : SessionStore)
    (prompt : JStr) (bodyPayer : Option JStr) : Outcome × SessionStore :=
  let input0 := jsTrim prompt
  if input0.isEmpty then (.badRequest missingPromptMsg, store)
  else
    let merged := followupMerge now key input0 store
    let input := merged.1
    let st1 := merged.2
    if isBareDurationQuery input then
      (.reply bareDurationMsg, setPendingPrompt key input now st1)
    else
      let payer :=
        match bodyPayer with
        | some bp => if bp.isEmpty then extractCanonicalPayer input else some (mapToCanonicalPayer bp)
        | none => extractCanonicalPayer input
      if payerTruthy payer && isPayerOnlyQuery input then
        (.reply (payerOnlyMsg (payer.getD [])),
         setPendingPrompt key (40 :: payer.getD [] ++ [41]) now st1)
      else
        match bloodDrawExact ds catalog input payer with
        | some e => (.reply (renderExact e), st1)
        | none =>
          let candidates := pipelineCandidates fs ds syns rules catalog input payer
          let preQ :=
            match earlyQuestion input payer with
            | some q => some q
            | none => if candidates.isEmpty then some unclearMsg else none
          match preQ with
          | some q => (.reply q, setPendingPrompt key input now st1)
          | none =>
            if candidates.isEmpty then (.badRequest noCandidatesMsg, setPendingPrompt key input now st1)
            else (.needModel candidates input, st1)

/-! ### Response validation (step 9, soft validation) -/

/-- Result of the soft validation of the model's reply. -/
inductive ValidationResult where
  | pass (output : JStr)
  | clarification (msg : JStr)
deriving DecidableEq, Repr

/-- After a first digit: further digits, with at most one trailing ASCII letter. -/
def digitsThenOptLetter : JStr → Bool
  | [] => true
  | [c] => isDigitCh c || isAsciiLetter c
  | c :: cs => isDigitCh c && digitsThenOptLetter cs

/-- Shape test of one `\w`-run for the code regex: one or more digits optionally
followed by a single ASCII letter (the `i` flag admits `A-Z`). -/
def isCodeToken : JStr → Bool
  | [] => false
  | c :: cs => isDigitCh c && digitsThenOptLetter cs

/-- Embeds `(output.match(/\b\d+[a-z]?\b/gi) || []).map(s => s.toLowerCase())`
deduplicated by `new Set`: since the pattern is `\b`-bounded on both sides and
`\d`/`[a-z]` are subsets of `\w`, a match can neither start nor stop inside a
`\w`-run, so the matches are exactly the maximal `\w`-runs consisting of digits
followed by at most one letter, in order. -/
def usedCodes (output : JStr) : List JStr :=
  dedupFirst (((wordsOf output).filter isCodeToken).map jsLower)

/-- The allow-list `new Set(candidates.map(c => String(c.pos).toLowerCase()))`. -/
def allowedSet (cands : List Entry) : List JStr := cands.map (fun c => jsLower c.pos)

/-- Embeds `usedCodes.filter(x => !allowedSet.has(x))`. -/
def illegalCodes (cands : List Entry) (output : JStr) : List JStr :=
  (usedCodes output).filter (fun x => !(allowedSet cands).contains x)

/-- Renders the clarification substituted for a reply containing illegal codes:
the question quoting the illegal codes, the candidate table and the
copy-paste list of the legal candidates. -/
def clarificationText (cands : List Entry) (illegal : List JStr) : JStr :=
  let rows := joinSep (jstr "\n") (cands.map (fun c =>
    c.pos ++ jstr " | " ++ c.title ++ jstr " | " ++ c.points ++
    (if c.notes.isEmpty then [] else jstr " | " ++ c.notes)))
  jstr "Rückfrage: Welche Position ist gemeint? (Deine Antwort enthielt: " ++
  joinSep (jstr ", ") illegal ++
  jstr ")\n\nPos.-Nr | Leistungstext | Punkte/€ | Zusatzinfo\n------- | ------------- | -------- | -----------\n" ++
  rows ++ jstr "\n\nCopy-Paste-Liste: " ++ joinSep (jstr "; ") (cands.map Entry.pos)

/-- Embeds step 9 of the handler: the model's reply passes through unchanged
when every extracted code is allowed, and is otherwise replaced by the locally
generated clarification. -/
def validateResponse (cands : List Entry) (output : JStr) : ValidationResult :=
  if (illegalCodes cands output).isEmpty then .pass output
  else .clarification (clarificationText cands (illegalCodes cands output))

/-! ### The literal source: `detectSetting` is an unbound identifier -/

/-- JavaScript runtime error raised by the evaluation of an unbound identifier. -/
inductive JsErr where
  | referenceError
deriving DecidableEq, Repr

/-- Evaluating the identifier `detectSetting`, which is declared nowhere in the
file, raises a `ReferenceError`. -/
def detectSettingUnbound : Except JsErr (Bool × Bool) := .error .referenceError

/-- Embeds `findCandidates` as written in the source, where the setting filter
reads `detectSetting(norm(userText))`: the payer filter on the first line
evaluates, then the call to the unbound identifier raises, and the remainder of
the body (modelled by the total `findCandidates` applied to the received
setting) is never reached. -/
def findCandidatesE (fs : FuseFn) (syns : List (JStr × List JStr)) (rules : List Rule)
    (catalog : List Entry) (userText : JStr) (payer : Option JStr) (limit : Nat := 12) :
    Except JsErr (List Entry) := do
  let _items := catalog.filter (payerPred payer)
  let setting ← detectSettingUnbound
  pure (findCandidates fs (fun _ => setting) syns rules catalog userText payer limit)

/-- Embeds step 3b of the handler as written in the source: `nt`, the intent and
the flags are computed, then `detectSetting(nt)` raises before the block can
test `intent && payer`. -/
def bloodDrawExactE (catalog : List Entry) (input : JStr) (payer : Option JStr) :
    Except JsErr (Option Entry) := do
  let nt := norm input
  let _intent := bloodIntent nt
  let _vFlag := hasVenousFlag nt
  let _kFlag := hasCapillaryFlag nt
  let setting ← detectSettingUnbound
  pure (bloodDrawExact (fun _ => setting) catalog input payer)

/-! ### Demo data shared by the concrete evaluations -/

/-- Demo entry: the first-visit fee. -/
def entry1C : Entry :=
  ⟨jstr "ÖGK", jstr "1C", jstr "Erstordination", jstr "20 P", jstr "", jstr "oegk.pdf"⟩

/-- Demo entry: the venous blood draw. -/
def entryVene : Entry :=
  ⟨jstr "ÖGK", jstr "54", jstr "Blutentnahme aus der Vene", jstr "4/I", jstr "", jstr "oegk.pdf"⟩

/-- Demo entry: a discussion entry whose title mentions a duration. -/
def entryGespraech : Entry :=
  ⟨jstr "ÖGK", jstr "34", jstr "Gespräch bis 20 Minuten", jstr "10 P", jstr "", jstr "oegk.pdf"⟩

/-! ### Helper lemmas -/

theorem mem_dedupFirstAux {x : JStr} : ∀ {seen xs : List JStr}, x ∈ dedupFirstAux seen xs → x ∈ xs := by
  intro seen xs
  induction xs generalizing seen with
  | nil => intro h; exact absurd h (by simp [dedupFirstAux])
  | cons y ys ih =>
    intro h
    unfold dedupFirstAux at h
    by_cases hy : seen.contains y
    · rw [if_pos hy] at h
      exact List.mem_cons_of_mem _ (ih h)
    · rw [if_neg hy] at h
      rcases List.mem_cons.mp h with h1 | h2
      · exact h1 ▸ List.mem_cons_self _ _
      · exact List.mem_cons_of_mem _ (ih h2)

theorem mem_usedCodes {t : JStr} {output : JStr} (h : t ∈ usedCodes output) :
    ∃ w, w ∈ wordsOf output ∧ isCodeToken w = true ∧ t = jsLower w := by
  unfold usedCodes at h
  have h2 := mem_dedupFirstAux h
  rcases List.mem_map.mp h2 with ⟨w, hw, ht⟩
  rcases List.mem_filter.mp hw with ⟨hw1, hw2⟩
  exact ⟨w, hw1, hw2, ht.symm⟩

theorem isDigitCh_jsLowerCh {c : Nat} (h : isDigitCh c = true) : jsLowerCh c = c := by
  simp only [isDigitCh, Bool.and_eq_true, decide_eq_true_eq] at h
  unfold jsLowerCh
  rw [if_neg (by simp; omega), if_neg (by simp; omega), if_neg (by simp; omega),
    if_neg (by simp; omega), if_neg (by simp; omega), if_neg (by simp; omega),
    if_neg (by simp; omega), if_neg (by simp; omega), if_neg (by simp; omega)]

theorem isAsciiLetter_jsLowerCh {c : Nat} (h : isAsciiLetter c = true) :
    isAsciiLetter (jsLowerCh c) = true := by
  simp only [isAsciiLetter, Bool.or_eq_true, Bool.and_eq_true, decide_eq_true_eq] at h ⊢
  unfold jsLowerCh
  by_cases h1 : 65 ≤ c ∧ c ≤ 90
  · rw [if_pos (by simp [h1.1, h1.2])]
    left
    omega
  · rw [if_neg (by simp; omega), if_neg (by simp; omega), if_neg (by simp; omega),
      if_neg (by simp; omega), if_neg (by simp; omega), if_neg (by simp; omega),
      if_neg (by simp; omega), if_neg (by simp; omega), if_neg (by simp; omega)]
    left
    omega

theorem digitsThenOptLetter_jsLower {w : JStr} (h : digitsThenOptLetter w = true) :
    digitsThenOptLetter (jsLower w) = true := by
  induction w with
  | nil => simp [jsLower, digitsThenOptLetter]
  | cons c cs ih =>
    cases cs with
    | nil =>
      simp only [digitsThenOptLetter, Bool.or_eq_true] at h
      rcases h with h | h
      · simp [jsLower, digitsThenOptLetter, isDigitCh_jsLowerCh h, h]
      · simp [jsLower, digitsThenOptLetter, isAsciiLetter_jsLowerCh h]
    | cons d ds =>
      simp only [digitsThenOptLetter, Bool.and_eq_true] at h
      have hlc := isDigitCh_jsLowerCh h.1
      have ih2 := ih h.2
      simp only [jsLower, List.map_cons] at ih2 ⊢
      simp only [digitsThenOptLetter, hlc, h.1, Bool.true_and]
      exact ih2

theorem isCodeToken_jsLower {w : JStr} (h : isCodeToken w = true) :
    isCodeToken (jsLower w) = true := by
  cases w with
  | nil => simp [isCodeToken] at h
  | cons c cs =>
    simp only [isCodeToken, Bool.and_eq_true] at h
    simp only [jsLower, List.map_cons, isCodeToken, Bool.and_eq_true]
    refine ⟨by rw [isDigitCh_jsLowerCh h.1]; exact h.1, ?_⟩
    have := digitsThenOptLetter_jsLower h.2
    simpa [jsLower] using this

/-- C2: in the documented server variant, `findCandidates` is not total: both it
and the deterministic blood-draw block of the endpoint call the unbound
identifier `detectSetting`, so every evaluation raises a `ReferenceError` and no
candidate list (or exact entry) is ever produced. -/
theorem findCandidates_always_referenceError (fs : FuseFn) (syns : List (JStr × List JStr))
    (rules : List Rule) (catalog : List Entry) (userText : JStr) (payer : Option JStr) (limit : Nat) :
    findCandidatesE fs syns rules catalog userText payer limit = Except.error JsErr.referenceError ∧
    bloodDrawExactE catalog userText payer = Except.error JsErr.referenceError :=
  ⟨rfl, rfl⟩

/-- C1: whenever the model's reply uses a position-code-shaped token that is not
in the candidate list's code set, the soft validation discards the reply and
substitutes the locally generated clarification listing the legal candidates;
a reply can only pass through unchanged when every extracted code is allowed. -/
theorem validator_blocks_unlisted_codes (cands : List Entry) (output : JStr) :
    (illegalCodes cands output ≠ [] →
      validateResponse cands output =
        ValidationResult.clarification (clarificationText cands (illegalCodes cands output))) ∧
    (∀ out, validateResponse cands output = ValidationResult.pass out →
      out = output ∧ ∀ t ∈ usedCodes out, (allowedSet cands).contains t = true) := by
  constructor
  · intro h
    unfold validateResponse
    rw [if_neg (by simpa [List.isEmpty_iff] using h)]
  · intro out hpass
    unfold validateResponse at hpass
    by_cases he : (illegalCodes cands output).isEmpty = true
    · rw [if_pos he] at hpass
      injection hpass with h1
      subst h1
      refine ⟨rfl, ?_⟩
      intro t ht
      cases hcb : (allowedSet cands).contains t with
      | true => rfl
      | false =>
        have hmem : t ∈ illegalCodes cands output := by
          unfold illegalCodes
          exact List.mem_filter.mpr ⟨ht, by simpa using hcb⟩
        rw [List.isEmpty_iff.mp he] at hmem
        exact absurd hmem (List.not_mem_nil t)
    · rw [if_neg he] at hpass
      exact absurd hpass (by simp)

/-- Witness for C1: the reply "Ich schlage 999 vor." against the allow-list
`{1C}` has the illegal code `999` and is replaced by the clarification. -/
theorem validator_blocks_unlisted_codes_witness :
    illegalCodes [entry1C] (jstr "Ich schlage 999 vor.") = [jstr "999"] ∧
    validateResponse [entry1C] (jstr "Ich schlage 999 vor.") =
      ValidationResult.clarification
        (clarificationText [entry1C] (illegalCodes [entry1C] (jstr "Ich schlage 999 vor."))) :=
  ⟨by decide, (validator_blocks_unlisted_codes [entry1C] (jstr "Ich schlage 999 vor.")).1 (by decide)⟩

/-- C10: the validation extracts only tokens of the shape "one or more digits
optionally followed by a single letter"; a reply whose extracted codes are all
allowed — in particular one whose only out-of-list codes have another shape,
such as a letter-first code — passes through to the caller unchanged. -/
theorem validator_extraction_shape (cands : List Entry) (output : JStr) :
    (∀ t ∈ usedCodes output, isCodeToken t = true) ∧
    ((∀ t ∈ usedCodes output, (allowedSet cands).contains t = true) →
      validateResponse cands output = ValidationResult.pass output) := by
  constructor
  · intro t ht
    rcases mem_usedCodes ht with ⟨w, _, hcode, rfl⟩
    exact isCodeToken_jsLower hcode
  · intro h
    unfold validateResponse
    have hnil : illegalCodes cands output = [] := by
      unfold illegalCodes
      rw [List.filter_eq_nil_iff]
      intro a ha
      simpa using h a ha
    rw [hnil]
    rfl

/-- Witness for C10: the reply "Nimm Position A12 und 1C." contains the
letter-first out-of-list token `A12`, which is not extracted; the only extracted
code is `1c`, which is allowed, so the reply passes through unchanged. -/
theorem validator_extraction_shape_witness :
    usedCodes (jstr "Nimm Position A12 und 1C.") = [jstr "1c"] ∧
    containsSub (jstr "A12") (jstr "Nimm Position A12 und 1C.") = true ∧
    validateResponse [entry1C] (jstr "Nimm Position A12 und 1C.") =
      ValidationResult.pass (jstr "Nimm Position A12 und 1C.") :=
  ⟨by decide, by decide,
    (validator_extraction_shape [entry1C] (jstr "Nimm Position A12 und 1C.")).2 (by decide)⟩

theorem storeGet_storeSet_self (key prompt : JStr) (ts : Nat) (store : SessionStore) :
    storeGet (storeSet key prompt ts store) key = some (prompt, ts) := by
  induction store with
  | nil => simp [storeSet, storeGet, List.find?]
  | cons e rest ih =>
    by_cases he : (e.1 == key) = true
    · simp [storeSet, he, storeGet, List.find?]
    · unfold storeSet
      rw [if_neg he]
      unfold storeGet at ih ⊢
      simp only [List.find?, he]
      exact ih

/-- C4: after a clarification stores the prompt, a follow-up arriving once the
5-minute TTL has elapsed is treated as a fresh query (no concatenation) and the
expired entry is removed; a follow-up within the TTL gets the pending text
prepended and the pending entry cleared. -/
theorem pendingSession_ttl (key q1 q2 : JStr) (t0 t1 : Nat) (store : SessionStore) :
    (t0 + FOLLOWUP_TTL_MS ≤ t1 →
      followupMerge t1 key q2 (setPendingPrompt key q1 t0 store) =
        (q2, clearPendingPrompt key (setPendingPrompt key q1 t0 store))) ∧
    (t1 < t0 + FOLLOWUP_TTL_MS →
      followupMerge t1 key q2 (setPendingPrompt key q1 t0 store) =
        (jsTrim (q1 ++ [32] ++ q2), clearPendingPrompt key (setPendingPrompt key q1 t0 store))) := by
  have hget : storeGet (setPendingPrompt key q1 t0 store) key = some (q1, t0) :=
    storeGet_storeSet_self key q1 t0 store
  constructor
  · intro hexp
    have hnl : ¬ t1 < t0 + FOLLOWUP_TTL_MS := Nat.not_lt.mpr hexp
    simp [followupMerge, getPendingPrompt, hget, hnl, clearPendingPrompt]
  · intro hlive
    simp [followupMerge, getPendingPrompt, hget, hlive, clearPendingPrompt]

/-- Witness for C4: a pending prompt "ÖGK" stored at time 0 is dropped by a
follow-up at 300000 ms (= TTL) and concatenated by one at 299999 ms. -/
theorem pendingSession_ttl_witness :
    followupMerge 300000 (jstr "u") (jstr "Blutabnahme")
        (setPendingPrompt (jstr "u") (jstr "ÖGK") 0 []) =
      (jstr "Blutabnahme", clearPendingPrompt (jstr "u") (setPendingPrompt (jstr "u") (jstr "ÖGK") 0 [])) ∧
    followupMerge 299999 (jstr "u") (jstr "Blutabnahme")
        (setPendingPrompt (jstr "u") (jstr "ÖGK") 0 []) =
      (jsTrim (jstr "ÖGK" ++ [32] ++ jstr "Blutabnahme"),
       clearPendingPrompt (jstr "u") (setPendingPrompt (jstr "u") (jstr "ÖGK") 0 [])) :=
  ⟨(pendingSession_ttl (jstr "u") (jstr "ÖGK") (jstr "Blutabnahme") 0 300000 []).1 (by decide),
   (pendingSession_ttl (jstr "u") (jstr "ÖGK") (jstr "Blutabnahme") 0 299999 []).2 (by decide)⟩

theorem mergeCandidates_foldl_length (a : List Entry) :
    ∀ acc : List Entry × List JStr,
      ((a.foldl
        (fun acc it =>
          if acc.2.contains it.pos then acc else (acc.1 ++ [it], it.pos :: acc.2)) acc).1).length ≤
      acc.1.length + a.length := by
  induction a with
  | nil => intro acc; simp
  | cons x xs ih =>
    intro acc
    simp only [List.foldl_cons, List.length_cons]
    refine le_trans (ih _) ?_
    by_cases hc : (acc.2.contains x.pos) = true
    · rw [if_pos hc]
      omega
    · rw [if_neg hc]
      simp only [List.length_append, List.length_cons, List.length_nil]
      omega

theorem mergeCandidates_length (c a : List Entry) :
    (mergeCandidates c a).length ≤ c.length + a.length :=
  mergeCandidates_foldl_length a (c, c.map Entry.pos)

theorem deriveAddOns_length (catalog : List Entry) (t : JStr) (payer : Option JStr) :
    (deriveAddOns catalog t payer).length ≤ 4 := by
  unfold deriveAddOns
  dsimp only
  split_ifs <;> (repeat' split) <;> simp

theorem findCandidates_length (fs : FuseFn) (ds : JStr → Bool × Bool)
    (syns : List (JStr × List JStr)) (rules : List Rule) (catalog : List Entry) (text : JStr)
    (payer : Option JStr) (limit : Nat) :
    (findCandidates fs ds syns rules catalog text payer limit).length ≤ limit := by
  simp only [findCandidates]
  split
  · exact List.length_take_le _ _
  · split
    · exact List.length_take_le _ _
    · exact List.length_take_le _ _

/-- C7 (amended): `findCandidates` itself always truncates to the limit, but the
candidate list used by the request pipeline is the merge of that list with the
derived add-ons (unless the query has blood intent), so its length is only
bounded by the limit plus the number of add-ons, at most `12 + 4`. -/
theorem candidate_limit_amended (fs : FuseFn) (ds : JStr → Bool × Bool)
    (syns : List (JStr × List JStr)) (rules : List Rule) (catalog : List Entry) (text : JStr)
    (payer : Option JStr) (limit : Nat) :
    (findCandidates fs ds syns rules catalog text payer limit).length ≤ limit ∧
    (pipelineCandidates fs ds syns rules catalog text payer).length ≤ 12 + 4 := by
  refine ⟨findCandidates_length fs ds syns rules catalog text payer limit, ?_⟩
  unfold pipelineCandidates
  split
  · exact le_trans (findCandidates_length fs ds syns rules catalog text payer 12) (by omega)
  · refine le_trans (mergeCandidates_length _ _) ?_
    have h1 := findCandidates_length fs ds syns rules catalog text payer 12
    have h2 := deriveAddOns_length catalog text payer
    omega

/-- The 14-entry catalog of the C7 counterexample: twelve consultation entries
plus the first-visit fee and the coordination surcharge. -/
def c7Catalog : List Entry :=
  [ ⟨jstr "ÖGK", jstr "1", jstr "Beratung A", jstr "1 P", jstr "", jstr "oegk.pdf"⟩,
    ⟨jstr "ÖGK", jstr "2", jstr "Beratung B", jstr "1 P", jstr "", jstr "oegk.pdf"⟩,
    ⟨jstr "ÖGK", jstr "3", jstr "Beratung C", jstr "1 P", jstr "", jstr "oegk.pdf"⟩,
    ⟨jstr "ÖGK", jstr "4", jstr "Beratung D", jstr "1 P", jstr "", jstr "oegk.pdf"⟩,
    ⟨jstr "ÖGK", jstr "5", jstr "Beratung E", jstr "1 P", jstr "", jstr "oegk.pdf"⟩,
    ⟨jstr "ÖGK", jstr "6", jstr "Beratung F", jstr "1 P", jstr "", jstr "oegk.pdf"⟩,
    ⟨jstr "ÖGK", jstr "7", jstr "Beratung G", jstr "1 P", jstr "", jstr "oegk.pdf"⟩,
    ⟨jstr "ÖGK", jstr "8", jstr "Beratung H", jstr "1 P", jstr "", jstr "oegk.pdf"⟩,
    ⟨jstr "ÖGK", jstr "9", jstr "Beratung I", jstr "1 P", jstr "", jstr "oegk.pdf"⟩,
    ⟨jstr "ÖGK", jstr "10", jstr "Beratung J", jstr "1 P", jstr "", jstr "oegk.pdf"⟩,
    ⟨jstr "ÖGK", jstr "11", jstr "Beratung K", jstr "1 P", jstr "", jstr "oegk.pdf"⟩,
    ⟨jstr "ÖGK", jstr "12", jstr "Beratung L", jstr "1 P", jstr "", jstr "oegk.pdf"⟩,
    entry1C,
    ⟨jstr "ÖGK", jstr "1D", jstr "Koordinationszuschlag", jstr "10 P", jstr "", jstr "oegk.pdf"⟩ ]

/-- Counterexample for C7: for the query "erste Beratung" against `c7Catalog`,
the pipeline's candidate list (after the add-on merge) has 14 entries — above
the limit of 12 — and this 14-entry list is exactly what the handler sends to
the external model. -/
theorem candidate_limit_counterexample :
    (pipelineCandidates fuseNone detectSettingSpec [] [] c7Catalog (jstr "erste Beratung") none).length = 14 ∧
    handleAbrechnen fuseNone detectSettingSpec [] [] c7Catalog 0 (jstr "u") [] (jstr "erste Beratung") none =
      (Outcome.needModel
        (pipelineCandidates fuseNone detectSettingSpec [] [] c7Catalog (jstr "erste Beratung") none)
        (jstr "erste Beratung"), []) := by
  constructor
  · decide
  · decide

theorem payerScan_mem (n : JStr) :
    ∀ (l : List (JStr × List JStr)) (c : JStr), payerScan n l = some c → c ∈ l.map Prod.fst := by
  intro l
  induction l with
  | nil => intro c h; simp [payerScan] at h
  | cons p rest ih =>
    intro c h
    unfold payerScan at h
    by_cases hc : ((p.1 :: p.2).any fun raw => paddedIncludes (norm raw) n) = true
    · rw [if_pos hc] at h
      injection h with h
      subst h
      simp
    · rw [if_neg hc] at h
      simp only [List.map_cons]
      exact List.mem_cons_of_mem _ (ih c h)

/-- C9 (amended): the simple `detectPayer` returns one of
{ÖGK, BVAEB, SVS, KUF, MEDRECH} or `null`; the robust detector
`extractCanonicalPayer` of the documented variant additionally returns `KFA`,
so its range is {ÖGK, BVAEB, SVS, KFA, KUF, MEDRECH} or `null`.  Both are total
functions of the text, with the checks tried in a fixed priority order and the
first match winning (demonstrated on "BVA ÖGK": the BVAEB check also matches,
yet ÖGK, tried first, wins). -/
theorem payer_detector_range_amended :
    (∀ t, detectPayer t = none ∨
      detectPayer t ∈ [some (jstr "ÖGK"), some (jstr "BVAEB"), some (jstr "SVS"),
        some (jstr "KUF"), some (jstr "MEDRECH")]) ∧
    (∀ t, extractCanonicalPayer t = none ∨
      extractCanonicalPayer t ∈ [some (jstr "ÖGK"), some (jstr "BVAEB"), some (jstr "SVS"),
        some (jstr "KFA"), some (jstr "KUF"), some (jstr "MEDRECH")]) ∧
    (detectPayer (jstr "BVA ÖGK") = some (jstr "ÖGK") ∧
     containsWord (jstr "bva") (normalizeInput (jstr "BVA ÖGK")) = true) := by
  refine ⟨?_, ?_, by decide, by decide⟩
  · intro t
    unfold detectPayer
    dsimp only
    split_ifs <;> simp
  · intro t
    unfold extractCanonicalPayer
    cases h : extractPayerFromText t with
    | none => left; rfl
    | some c =>
      right
      have hc := payerScan_mem (norm t) PAYER_SYNONYMS c h
      simp only [PAYER_SYNONYMS, List.map_cons, List.map_nil, List.mem_cons,
        List.not_mem_nil, or_false] at hc
      rcases hc with rfl | rfl | rfl | rfl | rfl | rfl <;> simp <;> decide

/-- Counterexample for C9: the robust payer detector of the documented variant
maps "KFA Wien" to KFA, which is outside the claimed enumeration
{ÖGK, BVAEB, SVS, KUF, MEDRECH}. -/
theorem payer_detector_kfa_counterexample :
    extractCanonicalPayer (jstr "KFA Wien") = some (jstr "KFA") ∧
    (jstr "KFA") ∉ [jstr "ÖGK", jstr "BVAEB", jstr "SVS", jstr "KUF", jstr "MEDRECH"] := by
  constructor
  · decide
  · decide

theorem mem_insOverlap {x y : Entry × Nat} :
    ∀ {l : List (Entry × Nat)}, x ∈ insOverlap y l → x = y ∨ x ∈ l := by
  intro l
  induction l with
  | nil => intro h; simp [insOverlap] at h; exact Or.inl h
  | cons z zs ih =>
    intro h
    unfold insOverlap at h
    by_cases hc : (z.2 < y.2)
    · rw [if_pos hc] at h
      rcases List.mem_cons.mp h with h1 | h2
      · exact Or.inl h1
      · exact Or.inr h2
    · rw [if_neg hc] at h
      rcases List.mem_cons.mp h with h1 | h2
      · exact Or.inr (h1 ▸ List.mem_cons_self _ _)
      · rcases ih h2 with h3 | h4
        · exact Or.inl h3
        · exact Or.inr (List.mem_cons_of_mem _ h4)

theorem mem_sortOverlapDesc {x : Entry × Nat} {l : List (Entry × Nat)}
    (h : x ∈ sortOverlapDesc l) : x ∈ l := by
  suffices hgen : ∀ (l : List (Entry × Nat)) (acc : List (Entry × Nat)),
      x ∈ l.foldl (fun acc y => insOverlap y acc) acc → x ∈ acc ∨ x ∈ l by
    rcases hgen l [] h with h1 | h2
    · exact absurd h1 (List.not_mem_nil x)
    · exact h2
  intro l
  induction l with
  | nil => intro acc h; exact Or.inl h
  | cons y ys ih =>
    intro acc h
    simp only [List.foldl_cons] at h
    rcases ih _ h with h1 | h2
    · rcases mem_insOverlap h1 with h3 | h4
      · exact Or.inr (h3 ▸ List.mem_cons_self _ _)
      · exact Or.inl h4
    · exact Or.inr (List.mem_cons_of_mem _ h2)

theorem mem_overlapFallback {e : Entry} {items : List Entry} {q : JStr}
    (h : e ∈ overlapFallback items q) : e ∈ items := by
  unfold overlapFallback at h
  rcases List.mem_map.mp h with ⟨pair, hpair, rfl⟩
  have h2 := mem_sortOverlapDesc hpair
  have h3 := (List.mem_filter.mp h2).1
  rcases List.mem_map.mp h3 with ⟨it, hit, heq⟩
  rw [← heq]
  exact hit

theorem settingFilter_subset {e : Entry} {setting : Bool × Bool} {items : List Entry}
    (h : e ∈ settingFilter setting items) : e ∈ items := by
  unfold settingFilter at h
  split_ifs at h
  · exact (List.mem_filter.mp h).1
  · exact (List.mem_filter.mp h).1
  · exact h

theorem psychFilter_subset {e : Entry} {nt : JStr} {items : List Entry}
    (h : e ∈ psychFilter nt items) : e ∈ items := by
  unfold psychFilter at h
  split_ifs at h
  · exact h
  · exact (List.mem_filter.mp h).1

theorem restrictToBloodDraw_subset {e : Entry} {items : List Entry}
    (h : e ∈ restrictToBloodDraw items) : e ∈ items :=
  (List.mem_filter.mp h).1

theorem findCandidatesPool_subset {e : Entry} {ds : JStr → Bool × Bool} {catalog : List Entry}
    {userText : JStr} {payer : Option JStr} (h : e ∈ findCandidatesPool ds catalog userText payer) :
    e ∈ catalog.filter (payerPred payer) := by
  unfold findCandidatesPool at h
  dsimp only at h
  split_ifs at h
  · exact settingFilter_subset (psychFilter_subset (restrictToBloodDraw_subset (List.mem_filter.mp h).1))
  · exact settingFilter_subset (psychFilter_subset (List.mem_filter.mp h).1)
  · exact settingFilter_subset (psychFilter_subset (restrictToBloodDraw_subset h))
  · exact settingFilter_subset (psychFilter_subset h)

theorem mem_prefer_reorder {e : Entry} {prefer : List JStr} {l : List Entry}
    (h : e ∈ (if (!prefer.isEmpty) = true then
      l.filter (fun x => prefer.contains x.pos) ++ l.filter (fun x => !prefer.contains x.pos)
    else l)) : e ∈ l := by
  split_ifs at h
  · rcases List.mem_append.mp h with hx | hx
    · exact (List.mem_filter.mp hx).1
    · exact (List.mem_filter.mp hx).1
  · exact h

theorem mem_blood_restrict {e : Entry} {b : Bool} {l : List Entry}
    (h : e ∈ (if b = true then restrictToBloodDraw l else l)) : e ∈ l := by
  split_ifs at h
  · exact restrictToBloodDraw_subset h
  · exact h

theorem mem_fuse_or_fallback {fs : FuseFn} (hfs : FuseSpec fs) {e : Entry} {pool : List Entry}
    {q : JStr} (h : e ∈ (if (fs pool q).isEmpty = true then overlapFallback pool q else fs pool q)) :
    e ∈ pool := by
  split_ifs at h
  · exact mem_overlapFallback h
  · exact hfs _ _ _ h

theorem mem_findCandidates {fs : FuseFn} (hfs : FuseSpec fs) {ds : JStr → Bool × Bool}
    {syns : List (JStr × List JStr)} {rules : List Rule} {catalog : List Entry} {userText : JStr}
    {payer : Option JStr} {limit : Nat} {e : Entry}
    (h : e ∈ findCandidates fs ds syns rules catalog userText payer limit) :
    e ∈ catalog.filter (payerPred payer) := by
  simp only [findCandidates] at h
  split at h
  · rename_i e' heq
    have he : e = e' := by
      have := List.mem_of_mem_take h
      simpa using this
    subst he
    split_ifs at heq
    all_goals exact findCandidatesPool_subset (List.mem_of_find?_eq_some heq)
  · split at h
    · rename_i e' heq
      have he : e = e' := by
        have := List.mem_of_mem_take h
        simpa using this
      subst he
      split_ifs at heq
      all_goals exact findCandidatesPool_subset (List.mem_of_find?_eq_some heq)
    · exact findCandidatesPool_subset
        (mem_fuse_or_fallback hfs (mem_prefer_reorder (mem_blood_restrict (List.mem_of_mem_take h))))

theorem fuseNone_spec : FuseSpec fuseNone :=
  fun _ _ _ h => absurd h (List.not_mem_nil _)

theorem extractCanonicalPayer_mem_range {t p : JStr} (h : extractCanonicalPayer t = some p) :
    p ∈ [jstr "ÖGK", jstr "BVAEB", jstr "SVS", jstr "KFA", jstr "KUF", jstr "MEDRECH"] := by
  unfold extractCanonicalPayer at h
  cases he : extractPayerFromText t with
  | none => rw [he] at h; exact absurd h (by simp)
  | some c =>
    rw [he] at h
    injection h with h
    subst h
    have hc := payerScan_mem (norm t) PAYER_SYNONYMS c he
    simp only [PAYER_SYNONYMS, List.map_cons, List.map_nil, List.mem_cons,
      List.not_mem_nil, or_false] at hc
    rcases hc with rfl | rfl | rfl | rfl | rfl | rfl <;> decide

theorem guessPayer_range (fn : JStr) :
    guessPayer fn ∈ [jstr "ÖGK", jstr "BVAEB", jstr "SVS", jstr "KUF", jstr "UNBEKANNT"] := by
  unfold guessPayer
  dsimp only
  split_ifs <;> simp

theorem samePayer_canonical {v p : JStr}
    (hv : v ∈ [jstr "ÖGK", jstr "BVAEB", jstr "SVS", jstr "KUF", jstr "UNBEKANNT"])
    (hp : p ∈ [jstr "ÖGK", jstr "BVAEB", jstr "SVS", jstr "KFA", jstr "KUF", jstr "MEDRECH"])
    (h : samePayer v p = true) : v = p := by
  fin_cases hv <;> fin_cases hp <;> first | rfl | exact absurd h (by decide)

/-- C6: the payer filter of `findCandidates` compares canonical payer forms
(`samePayer`), and since every catalog entry's payer comes from the generator's
`guessPayer` (a canonical name or UNBEKANNT) while the detected payer is
canonical, every returned entry satisfies `entry.payer = payer` literally. -/
theorem findCandidates_payer_filter (fs : FuseFn) (hfs : FuseSpec fs) (ds : JStr → Bool × Bool)
    (syns : List (JStr × List JStr)) (rules : List Rule) (catalog : List Entry)
    (text p : JStr) (limit : Nat) (e : Entry)
    (hdetect : extractCanonicalPayer text = some p)
    (hgen : ∀ x ∈ catalog, ∃ fn, x.payer = guessPayer fn)
    (hmem : e ∈ findCandidates fs ds syns rules catalog text (some p) limit) :
    e.payer = p := by
  have h1 := mem_findCandidates hfs hmem
  have h2 := List.mem_filter.mp h1
  have hp := extractCanonicalPayer_mem_range hdetect
  have hpe : p.isEmpty = false := by fin_cases hp <;> decide
  have hsp : samePayer e.payer p = true := by
    have h3 := h2.2
    unfold payerPred at h3
    simpa [hpe] using h3
  obtain ⟨fn, hfn⟩ := hgen e h2.1
  exact samePayer_canonical (hfn ▸ guessPayer_range fn) hp hsp

/-- Witness for C6: for the query "OEGK Erstordination" the detector yields ÖGK,
the one-entry catalog (payer produced by `guessPayer "oegk.pdf"`) is searched,
and the returned entry's payer equals the detected payer literally. -/
theorem findCandidates_payer_filter_witness :
    extractCanonicalPayer (jstr "OEGK Erstordination") = some (jstr "ÖGK") ∧
    entry1C ∈ findCandidates fuseNone detectSettingSpec [] [] [entry1C]
      (jstr "OEGK Erstordination") (some (jstr "ÖGK")) 12 ∧
    entry1C.payer = jstr "ÖGK" :=
  ⟨by decide, by decide,
    findCandidates_payer_filter fuseNone fuseNone_spec detectSettingSpec [] [] [entry1C]
      (jstr "OEGK Erstordination") (jstr "ÖGK") 12 entry1C (by decide)
      (by
        intro x hx
        rw [List.mem_singleton.mp hx]
        exact ⟨jstr "oegk.pdf", by decide⟩)
      (by decide)⟩

/-- C5 (code bug): the prompt "über 20 Minuten" — the very example in the
guard's own comment — contains the duration word "minuten" and no recognized
service keyword, yet `isBareDurationQuery` returns false because
`/\b(min|minute|stunden?|std)\b/` does not match the plural "minuten"; the
handler therefore proceeds to the external model instead of returning the
clarification. -/
theorem bareDuration_guard_misses_minuten :
    containsWord (jstr "minuten") (norm (jstr "über 20 Minuten")) = true ∧
    hasServiceKeyword (norm (jstr "über 20 Minuten")) = false ∧
    isBareDurationQuery (jstr "über 20 Minuten") = false ∧
    handleAbrechnen fuseNone detectSettingSpec [] [] [entryGespraech] 0 (jstr "u") []
        (jstr "über 20 Minuten") none =
      (Outcome.needModel [entryGespraech] (jstr "über 20 Minuten"), []) :=
  ⟨by decide, by decide, by decide, by decide⟩

set_option maxHeartbeats 2000000 in
/-- C3 (amended): under the documented guards — a non-empty prompt, no pending
session, the bare-duration and payer-only guards not firing — a query with
blood-draw intent and the venous flag whose detected payer's (setting-filtered)
pool contains an entry with the exact blood-draw title makes the handler return
that single entry's table deterministically, before any fuzzy search, and the
copy-paste list of the response is exactly that entry's position code. -/
theorem bloodDraw_deterministic_amended
    (fs : FuseFn) (ds : JStr → Bool × Bool) (syns : List (JStr × List JStr)) (rules : List Rule)
    (catalog : List Entry) (now : Nat) (key : JStr) (store : SessionStore) (input p : JStr)
    (e : Entry)
    (hne : input ≠ [])
    (htrim : jsTrim input = input)
    (hfresh : storeGet store key = none)
    (hbare : isBareDurationQuery input = false)
    (hdetect : extractCanonicalPayer input = some p)
    (hponly : isPayerOnlyQuery input = false)
    (hblood : bloodIntent (norm input) = true)
    (hven : hasVenousFlag (norm input) = true)
    (hpne : p.isEmpty = false)
    (hfind : (settingFilter (ds (norm input)) (catalog.filter (payerPred (some p)))).find?
        (fun it => matchVeneTitle it.title) = some e) :
    handleAbrechnen fs ds syns rules catalog now key store input none =
      (Outcome.reply (renderExact e), storeDelete key store) ∧
    ∃ pre, renderExact e = pre ++ jstr "Copy-Paste-Liste: " ++ e.pos := by
  constructor
  · have h0 : input.isEmpty = false := by
      cases input
      · exact absurd rfl hne
      · rfl
    have hm : followupMerge now key input store = (input, storeDelete key store) := by
      unfold followupMerge getPendingPrompt
      rw [hfresh]
    have hex : bloodDrawExact ds catalog input (some p) = some e := by
      unfold bloodDrawExact
      simp only [hblood, hven, payerTruthy, hpne, Bool.not_false, Bool.and_true, Bool.true_and,
        if_true, if_pos]
      rw [hfind]
    simp only [handleAbrechnen, htrim, h0, Bool.false_eq_true, if_false, hm, hbare, hdetect,
      payerTruthy, hpne, Bool.not_false, Bool.true_and, Bool.and_true, hponly, Bool.and_false,
      hex]
  · refine ⟨jstr "Pos.-Nr | Leistungstext | Punkte/€ | Zusatzinfo\n------- | ------------- | -------- | -----------\n" ++
      (e.pos ++ jstr " | " ++ e.title ++ jstr " | " ++ e.points ++
        (if e.notes.isEmpty then [] else jstr " | " ++ e.notes)) ++ jstr "\n\n", ?_⟩
    unfold renderExact
    rw [show jstr "\n\nCopy-Paste-Liste: " = jstr "\n\n" ++ jstr "Copy-Paste-Liste: " from by decide]
    simp [List.append_assoc]

/-- Witness for C3 (amended): the query "OEGK Blutentnahme aus der Vene"
against the one-entry ÖGK catalog yields exactly that entry's deterministic
table. -/
theorem bloodDraw_deterministic_amended_witness :
    handleAbrechnen fuseNone detectSettingSpec [] [] [entryVene] 0 (jstr "u") []
        (jstr "OEGK Blutentnahme aus der Vene") none =
      (Outcome.reply (renderExact entryVene), []) :=
  (bloodDraw_deterministic_amended fuseNone detectSettingSpec [] [] [entryVene] 0 (jstr "u") []
    (jstr "OEGK Blutentnahme aus der Vene") (jstr "ÖGK") entryVene (by decide) (by decide)
    (by decide) (by decide) (by decide) (by decide) (by decide) (by decide) (by decide)
    (by decide)).1

/-- Counterexample for C3 as stated: "ÖGK Blutentnahme aus der Vene 5 min" has
blood-draw intent, the venous flag, a detected payer and an exact-title entry in
the catalog, yet the handler answers with the bare-duration clarification (the
word "min" triggers the earlier guard), not with the single entry. -/
theorem bloodDraw_deterministic_counterexample :
    bloodIntent (norm (jstr "ÖGK Blutentnahme aus der Vene 5 min")) = true ∧
    hasVenousFlag (norm (jstr "ÖGK Blutentnahme aus der Vene 5 min")) = true ∧
    extractCanonicalPayer (jstr "ÖGK Blutentnahme aus der Vene 5 min") = some (jstr "ÖGK") ∧
    matchVeneTitle entryVene.title = true ∧
    samePayer entryVene.payer (jstr "ÖGK") = true ∧
    handleAbrechnen fuseNone detectSettingSpec [] [] [entryVene] 0 (jstr "u") []
        (jstr "ÖGK Blutentnahme aus der Vene 5 min") none =
      (Outcome.reply bareDurationMsg,
       [(jstr "u", jstr "ÖGK Blutentnahme aus der Vene 5 min", 0)]) ∧
    bareDurationMsg ≠ renderExact entryVene :=
  ⟨by decide, by decide, by decide, by decide, by decide, by decide, by decide⟩

/-! ### Character-level pipeline view of the normalizers -/

/-- Per-character pipeline of `norm`: lowercase, fold, NFKD + strip, punctuation
to space. -/
def charPipeN (c : Nat) : JStr :=
  ((foldCh (jsLowerCh c)).flatMap nfkdStripCh).map punctToSpaceCh

/-- Per-character pipeline of `normalizeInput`: lowercase and fold only. -/
def charPipeNI (c : Nat) : JStr := foldCh (jsLowerCh c)

theorem flatMap_flatMap (f g : Nat → JStr) :
    ∀ s : JStr, (s.flatMap f).flatMap g = s.flatMap (fun c => (f c).flatMap g) := by
  intro s
  induction s with
  | nil => rfl
  | cons c cs ih => simp [List.flatMap_cons, List.flatMap_append, ih]

theorem flatMap_congr {f g : Nat → JStr} (h : ∀ c, f c = g c) :
    ∀ s : JStr, s.flatMap f = s.flatMap g := by
  intro s
  induction s with
  | nil => rfl
  | cons c cs ih => simp [List.flatMap_cons, h c, ih]

theorem flatMap_fixed {f : Nat → JStr} :
    ∀ {s : JStr}, (∀ c ∈ s, f c = [c]) → s.flatMap f = s := by
  intro s
  induction s with
  | nil => intro _; rfl
  | cons c cs ih =>
    intro h
    simp only [List.flatMap_cons, h c (List.mem_cons_self _ _)]
    rw [ih (fun d hd => h d (List.mem_cons_of_mem _ hd))]
    rfl

theorem norm_eq (s : JStr) : norm s = jsTrim (collapseWs (s.flatMap charPipeN)) := by
  show jsTrim (collapseWs ((nfkdStrip (foldStr (jsLower s))).map punctToSpaceCh)) = _
  congr 2
  induction s with
  | nil => rfl
  | cons c cs ih =>
    simp only [jsLower, List.map_cons, foldStr, nfkdStrip, List.flatMap_cons, List.map_append,
      List.flatMap_append, charPipeN] at ih ⊢
    rw [ih]

theorem normalizeInput_eq (s : JStr) :
    normalizeInput s = jsTrim (collapseWs (s.flatMap charPipeNI)) := by
  unfold normalizeInput
  congr 2
  induction s with
  | nil => rfl
  | cons c cs ih =>
    simp only [jsLower, List.map_cons, foldStr, List.flatMap_cons, charPipeNI] at ih ⊢
    rw [ih]

/-- Canonical whitespace shape after `collapseWs`: every whitespace character is
a single 32 not preceded by whitespace (the flag records whether the previous
character was whitespace). -/
def okWs : Bool → JStr → Bool
  | _, [] => true
  | prevWs, c :: cs =>
    if isWsCh c then (c == 32 && !prevWs) && okWs true cs else okWs false cs

theorem collapseWsAux_fixed : ∀ (t : JStr) (b : Bool), okWs b t = true → collapseWsAux b t = t := by
  intro t
  induction t with
  | nil => intro b _; rfl
  | cons c cs ih =>
    intro b h
    unfold okWs at h
    by_cases hw : isWsCh c = true
    · rw [if_pos hw] at h
      simp only [Bool.and_eq_true, beq_iff_eq, Bool.not_eq_true'] at h
      obtain ⟨⟨hc, hb⟩, hrest⟩ := h
      subst hc hb
      unfold collapseWsAux
      rw [if_pos hw]
      simp only [Bool.false_eq_true, if_false]
      rw [ih true hrest]
    · rw [if_neg hw] at h
      unfold collapseWsAux
      rw [if_neg hw, ih false h]

theorem okWs_collapseWsAux : ∀ (s : JStr) (b : Bool), okWs b (collapseWsAux b s) = true := by
  intro s
  induction s with
  | nil => intro b; rfl
  | cons c cs ih =>
    intro b
    unfold collapseWsAux
    by_cases hw : isWsCh c = true
    · rw [if_pos hw]
      cases b with
      | true => exact ih true
      | false =>
        simp only [Bool.false_eq_true, if_false]
        simp only [okWs]
        rw [if_pos (by decide)]
        simp [ih true]
    · rw [if_neg hw]
      unfold okWs
      rw [if_neg hw]
      exact ih false

theorem okWs_append_left : ∀ (u : JStr) (b : Bool) (v : JStr),
    okWs b (u ++ v) = true → okWs b u = true := by
  intro u
  induction u with
  | nil => intro b v _; rfl
  | cons c cu ih =>
    intro b v h
    simp only [List.cons_append] at h
    simp only [okWs] at h ⊢
    by_cases hw : isWsCh c = true
    · rw [if_pos hw] at h ⊢
      simp only [Bool.and_eq_true] at h ⊢
      exact ⟨h.1, ih true v h.2⟩
    · rw [if_neg hw] at h ⊢
      exact ih false v h

theorem okWs_true_false {t : JStr} (hhead : ∀ c cs, t = c :: cs → isWsCh c = false)
    (h : okWs true t = true) : okWs false t = true := by
  cases t with
  | nil => rfl
  | cons c cs =>
    have hc := hhead c cs rfl
    unfold okWs at h ⊢
    rw [if_neg (by simp [hc])] at h ⊢
    exact h

theorem dropWhile_head_not {p : Nat → Bool} :
    ∀ {l : JStr} {c : Nat} {cs : JStr}, List.dropWhile p l = c :: cs → p c = false := by
  intro l
  induction l with
  | nil => intro c cs h; exact absurd h (by simp)
  | cons d ds ih =>
    intro c cs h
    by_cases hd : p d = true
    · rw [List.dropWhile_cons_of_pos hd] at h
      exact ih h
    · rw [List.dropWhile_cons_of_neg hd] at h
      injection h with h1 _
      subst h1
      simpa using hd

theorem okWs_dropWhile {t : JStr} (h : okWs false t = true) :
    okWs false (t.dropWhile isWsCh) = true := by
  induction t with
  | nil => rfl
  | cons c cs ih =>
    by_cases hw : isWsCh c = true
    · rw [List.dropWhile_cons_of_pos hw]
      unfold okWs at h
      rw [if_pos hw] at h
      simp only [Bool.and_eq_true, beq_iff_eq, Bool.not_eq_true'] at h
      obtain ⟨⟨hc, _⟩, hrest⟩ := h
      have hhead : ∀ d ds, cs = d :: ds → isWsCh d = false := by
        intro d ds hds
        subst hds
        unfold okWs at hrest
        by_cases hdw : isWsCh d = true
        · rw [if_pos hdw] at hrest
          simp at hrest
        · exact (by simpa using hdw)
      have hfalse := okWs_true_false hhead hrest
      have heq : cs.dropWhile isWsCh = cs := by
        cases cs with
        | nil => rfl
        | cons d ds => rw [List.dropWhile_cons_of_neg (by simp [hhead d ds rfl])]
      rw [heq]
      exact hfalse
    · rw [List.dropWhile_cons_of_neg (by simp [hw])]
      exact h

theorem dropWhile_eq_jsTrim_append (t : JStr) :
    t.dropWhile isWsCh = jsTrim t ++ ((t.dropWhile isWsCh).reverse.takeWhile isWsCh).reverse := by
  have h := List.takeWhile_append_dropWhile (p := isWsCh) (l := (t.dropWhile isWsCh).reverse)
  calc t.dropWhile isWsCh
      = ((t.dropWhile isWsCh).reverse).reverse := (List.reverse_reverse _).symm
    _ = (((t.dropWhile isWsCh).reverse.takeWhile isWsCh) ++
          ((t.dropWhile isWsCh).reverse.dropWhile isWsCh)).reverse := by rw [h]
    _ = ((t.dropWhile isWsCh).reverse.dropWhile isWsCh).reverse ++
          ((t.dropWhile isWsCh).reverse.takeWhile isWsCh).reverse := by rw [List.reverse_append]

theorem okWs_jsTrim {t : JStr} (h : okWs false t = true) : okWs false (jsTrim t) = true := by
  have h1 := okWs_dropWhile h
  rw [dropWhile_eq_jsTrim_append t] at h1
  exact okWs_append_left _ _ _ h1

theorem jsTrim_idem (t : JStr) : jsTrim (jsTrim t) = jsTrim t := by
  have hA : (jsTrim t).dropWhile isWsCh = jsTrim t := by
    cases hc : jsTrim t with
    | nil => rfl
    | cons c cs =>
      have hx : t.dropWhile isWsCh =
          (c :: cs) ++ ((t.dropWhile isWsCh).reverse.takeWhile isWsCh).reverse := by
        rw [← hc]
        exact dropWhile_eq_jsTrim_append t
      have hcw : isWsCh c = false := dropWhile_head_not (by rw [hx]; rfl)
      rw [List.dropWhile_cons_of_neg (by simp [hcw])]
  have hB : (jsTrim t).reverse.dropWhile isWsCh = (jsTrim t).reverse := by
    have hrev : (jsTrim t).reverse = (t.dropWhile isWsCh).reverse.dropWhile isWsCh := by
      unfold jsTrim
      rw [List.reverse_reverse]
    cases hc : (jsTrim t).reverse with
    | nil => rfl
    | cons c cs =>
      have hcw : isWsCh c = false := dropWhile_head_not (by rw [← hrev, hc])
      rw [List.dropWhile_cons_of_neg (by simp [hcw])]
  show (((jsTrim t).dropWhile isWsCh).reverse.dropWhile isWsCh).reverse = jsTrim t
  rw [hA, hB, List.reverse_reverse]

theorem mem_of_mem_dropWhile {p : Nat → Bool} {d : Nat} :
    ∀ {l : JStr}, d ∈ l.dropWhile p → d ∈ l := by
  intro l
  induction l with
  | nil => intro h; simp at h
  | cons c cs ih =>
    intro h
    by_cases hc : p c = true
    · rw [List.dropWhile_cons_of_pos hc] at h
      exact List.mem_cons_of_mem _ (ih h)
    · rw [List.dropWhile_cons_of_neg (by simp [hc])] at h
      exact h

theorem mem_of_mem_jsTrim {d : Nat} {t : JStr} (h : d ∈ jsTrim t) : d ∈ t := by
  unfold jsTrim at h
  rw [List.mem_reverse] at h
  have h2 := mem_of_mem_dropWhile h
  rw [List.mem_reverse] at h2
  exact mem_of_mem_dropWhile h2

theorem mem_collapseWsAux {d : Nat} :
    ∀ {s : JStr} {b : Bool}, d ∈ collapseWsAux b s → d = 32 ∨ (d ∈ s ∧ isWsCh d = false) := by
  intro s
  induction s with
  | nil => intro b h; simp [collapseWsAux] at h
  | cons c cs ih =>
    intro b h
    unfold collapseWsAux at h
    by_cases hw : isWsCh c = true
    · rw [if_pos hw] at h
      cases b with
      | true =>
        rcases ih h with h1 | h2
        · exact Or.inl h1
        · exact Or.inr ⟨List.mem_cons_of_mem _ h2.1, h2.2⟩
      | false =>
        simp only [Bool.false_eq_true, if_false] at h
        rcases List.mem_cons.mp h with h1 | h2
        · exact Or.inl h1
        · rcases ih h2 with h3 | h4
          · exact Or.inl h3
          · exact Or.inr ⟨List.mem_cons_of_mem _ h4.1, h4.2⟩
    · rw [if_neg hw] at h
      rcases List.mem_cons.mp h with h1 | h2
      · subst h1
        exact Or.inr ⟨List.mem_cons_self _ _, by simp at hw; exact hw⟩
      · rcases ih h2 with h3 | h4
        · exact Or.inl h3
        · exact Or.inr ⟨List.mem_cons_of_mem _ h4.1, h4.2⟩

/-- Characters that can appear in `norm`-pipeline output before whitespace
collapsing: digits, lowercase ASCII letters, underscore, or whitespace. -/
def preOutCh (c : Nat) : Bool :=
  isDigitCh c || (97 ≤ c && c ≤ 122) || c == 95 || isWsCh c

/-- Characters of a finished `norm` output: digits, lowercase ASCII letters,
underscore, or a plain space. -/
def normOutCh (c : Nat) : Bool :=
  isDigitCh c || (97 ≤ c && c ≤ 122) || c == 95 || c == 32

theorem jsLowerCh_image (c : Nat) :
    ¬(65 ≤ jsLowerCh c ∧ jsLowerCh c ≤ 90) ∧
    jsLowerCh c ≠ 196 ∧ jsLowerCh c ≠ 214 ∧ jsLowerCh c ≠ 220 ∧ jsLowerCh c ≠ 7838 ∧
    jsLowerCh c ≠ 201 ∧ jsLowerCh c ≠ 200 ∧ jsLowerCh c ≠ 193 ∧ jsLowerCh c ≠ 192 := by
  unfold jsLowerCh
  split_ifs <;> simp_all
  all_goals omega

theorem jsLowerCh_fixed_out {e : Nat} (h1 : ¬(65 ≤ e ∧ e ≤ 90))
    (h2 : e ≠ 196 ∧ e ≠ 214 ∧ e ≠ 220 ∧ e ≠ 7838 ∧ e ≠ 201 ∧ e ≠ 200 ∧ e ≠ 193 ∧ e ≠ 192) :
    jsLowerCh e = e := by
  unfold jsLowerCh
  rw [if_neg (by simp; omega), if_neg (by simp; omega), if_neg (by simp; omega),
    if_neg (by simp; omega), if_neg (by simp; omega), if_neg (by simp; omega),
    if_neg (by simp; omega), if_neg (by simp; omega), if_neg (by simp; omega)]

theorem foldCh_eq_single {e : Nat} (h : e ≠ 228 ∧ e ≠ 246 ∧ e ≠ 252 ∧ e ≠ 223) :
    foldCh e = [e] := by
  unfold foldCh
  rw [if_neg (by simp; omega), if_neg (by simp; omega), if_neg (by simp; omega),
    if_neg (by simp; omega)]

theorem foldCh_chars {d e : Nat} (h : d ∈ foldCh e) :
    d ∈ ([97, 101, 111, 117, 115] : List Nat) ∨
    (d = e ∧ e ≠ 228 ∧ e ≠ 246 ∧ e ≠ 252 ∧ e ≠ 223) := by
  unfold foldCh at h
  split_ifs at h <;> simp_all <;> omega

theorem nfkdStripCh_single {e : Nat} (h1 : ¬(768 ≤ e ∧ e ≤ 879))
    (h2 : e ≠ 233 ∧ e ≠ 232 ∧ e ≠ 225 ∧ e ≠ 224 ∧ e ≠ 226 ∧ e ≠ 234) :
    nfkdStripCh e = [e] := by
  unfold nfkdStripCh
  rw [if_neg (by simp; omega), if_neg (by simp; omega), if_neg (by simp; omega),
    if_neg (by simp; omega), if_neg (by simp; omega), if_neg (by simp; omega),
    if_neg (by simp; omega)]

theorem nfkdStripCh_chars {d e : Nat} (h : d ∈ nfkdStripCh e) :
    d ∈ ([101, 97] : List Nat) ∨ d = e := by
  unfold nfkdStripCh at h
  split_ifs at h <;> simp_all

theorem charPipeN_fixed {c : Nat} (h : normOutCh c = true) : charPipeN c = [c] := by
  simp only [normOutCh, isDigitCh, Bool.or_eq_true, Bool.and_eq_true, decide_eq_true_eq,
    beq_iff_eq] at h
  unfold charPipeN
  rw [jsLowerCh_fixed_out (by omega) (by omega)]
  rw [foldCh_eq_single (by omega)]
  simp only [List.flatMap_cons, List.flatMap_nil, List.append_nil]
  rw [nfkdStripCh_single (by omega) (by omega)]
  have hp : punctToSpaceCh c = c := by
    unfold punctToSpaceCh
    rw [if_pos (by simp [isWordCh, isWsCh]; omega)]
  simp [hp]

theorem charPipeN_chars {c d : Nat} (h : d ∈ charPipeN c) : preOutCh d = true := by
  unfold charPipeN at h
  rcases List.mem_map.mp h with ⟨x, hx, rfl⟩
  rcases List.mem_flatMap.mp hx with ⟨y, hy, hxy⟩
  have hynu : ¬(65 ≤ y ∧ y ≤ 90) := by
    rcases foldCh_chars hy with hy1 | hy2
    · simp only [List.mem_cons, List.not_mem_nil, or_false] at hy1
      omega
    · exact hy2.1 ▸ (jsLowerCh_image c).1
  have hxnu : ¬(65 ≤ x ∧ x ≤ 90) := by
    rcases nfkdStripCh_chars hxy with hx1 | hx2
    · simp only [List.mem_cons, List.not_mem_nil, or_false] at hx1
      omega
    · exact hx2 ▸ hynu
  unfold punctToSpaceCh
  by_cases hw : (isWordCh x || isWsCh x) = true
  · rw [if_pos hw]
    simp only [isWordCh, isWsCh, Bool.or_eq_true, Bool.and_eq_true, decide_eq_true_eq,
      beq_iff_eq] at hw
    simp only [preOutCh, isDigitCh, isWsCh, Bool.or_eq_true, Bool.and_eq_true,
      decide_eq_true_eq, beq_iff_eq]
    omega
  · rw [if_neg hw]
    decide

theorem norm_chars (s : JStr) : ∀ d ∈ norm s, normOutCh d = true := by
  intro d hd
  rw [norm_eq] at hd
  have h1 := mem_of_mem_jsTrim hd
  rcases mem_collapseWsAux h1 with h2 | ⟨h3, h4⟩
  · subst h2; decide
  · rcases List.mem_flatMap.mp h3 with ⟨c, _, hc⟩
    have h5 := charPipeN_chars hc
    simp only [preOutCh, isWsCh, Bool.or_eq_true] at h5
    rcases h5 with ((h6 | h6) | h6) | h6
    · simp [normOutCh, h6]
    · simp [normOutCh, h6]
    · simp [normOutCh, h6]
    · exfalso
      have h7 : isWsCh d = true := by
        simp only [isWsCh, Bool.or_eq_true]
        exact h6
      rw [h7] at h4
      exact absurd h4 (by simp)

/-- C8 helper: `norm` is idempotent. -/
theorem norm_idem (s : JStr) : norm (norm s) = norm s := by
  rw [norm_eq (norm s)]
  rw [flatMap_fixed (fun c hc => charPipeN_fixed (norm_chars s c hc))]
  have hok : okWs false (norm s) = true := by
    rw [norm_eq s]
    exact okWs_jsTrim (okWs_collapseWsAux _ false)
  rw [show collapseWs (norm s) = norm s from collapseWsAux_fixed _ false hok]
  conv_lhs => rw [norm_eq s]
  conv_rhs => rw [norm_eq s]
  exact jsTrim_idem _

theorem charPipeNI_fixed_of_mem {c d : Nat} (h : d ∈ charPipeNI c) : charPipeNI d = [d] := by
  unfold charPipeNI at h ⊢
  rcases foldCh_chars h with h1 | h2
  · simp only [List.mem_cons, List.not_mem_nil, or_false] at h1
    rw [jsLowerCh_fixed_out (by omega) (by omega)]
    exact foldCh_eq_single (by omega)
  · obtain ⟨rfl, hne⟩ := h2
    have him := jsLowerCh_image c
    rw [jsLowerCh_fixed_out him.1 him.2]
    exact foldCh_eq_single hne

theorem normalizeInput_char_fixed (s : JStr) :
    ∀ d ∈ normalizeInput s, charPipeNI d = [d] := by
  intro d hd
  rw [normalizeInput_eq] at hd
  have h1 := mem_of_mem_jsTrim hd
  rcases mem_collapseWsAux h1 with h2 | ⟨h3, _⟩
  · subst h2
    decide
  · rcases List.mem_flatMap.mp h3 with ⟨c, _, hc⟩
    exact charPipeNI_fixed_of_mem hc

/-- C8 helper: `normalizeInput` is idempotent. -/
theorem normalizeInput_idem (s : JStr) :
    normalizeInput (normalizeInput s) = normalizeInput s := by
  rw [normalizeInput_eq (normalizeInput s)]
  rw [flatMap_fixed (normalizeInput_char_fixed s)]
  have hok : okWs false (normalizeInput s) = true := by
    rw [normalizeInput_eq s]
    exact okWs_jsTrim (okWs_collapseWsAux _ false)
  rw [show collapseWs (normalizeInput s) = normalizeInput s from collapseWsAux_fixed _ false hok]
  conv_lhs => rw [normalizeInput_eq s]
  conv_rhs => rw [normalizeInput_eq s]
  exact jsTrim_idem _

/-- Character-level model of `String.prototype.toUpperCase` for the modelled
repertoire: ASCII `a-z`, `ä/ö/ü → Ä/Ö/Ü` and `ß → SS`; all other code points
are fixed. -/
def jsUpperCh (c : Nat) : JStr :=
  if 97 ≤ c && c ≤ 122 then [c - 32]
  else if c == 228 then [196]
  else if c == 246 then [214]
  else if c == 252 then [220]
  else if c == 223 then [83, 83]
  else [c]

/-- Uppercases a JS string (`s.toUpperCase()`). -/
def jsUpper (s : JStr) : JStr := s.flatMap jsUpperCh

theorem jsUpperCh_pipe (c : Nat) : (jsUpperCh c).flatMap charPipeN = charPipeN c := by
  unfold jsUpperCh
  split_ifs with h1 h2 h3 h4 h5
  · simp only [List.flatMap_cons, List.flatMap_nil, List.append_nil]
    have e1 : jsLowerCh (c - 32) = c := by
      simp only [Bool.and_eq_true, decide_eq_true_eq] at h1
      unfold jsLowerCh
      rw [if_pos (by simp; omega)]
      omega
    have e2 : jsLowerCh c = c := by
      simp only [Bool.and_eq_true, decide_eq_true_eq] at h1
      exact jsLowerCh_fixed_out (by omega) (by omega)
    unfold charPipeN
    rw [e1, e2]
  · simp only [beq_iff_eq] at h2
    subst h2
    decide
  · simp only [beq_iff_eq] at h3
    subst h3
    decide
  · simp only [beq_iff_eq] at h4
    subst h4
    decide
  · simp only [beq_iff_eq] at h5
    subst h5
    decide
  · simp

/-- C8 helper: `norm` is insensitive to uppercasing. -/
theorem norm_jsUpper (s : JStr) : norm (jsUpper s) = norm s := by
  rw [norm_eq, norm_eq]
  have h : (jsUpper s).flatMap charPipeN = s.flatMap charPipeN := by
    unfold jsUpper
    rw [flatMap_flatMap]
    exact flatMap_congr jsUpperCh_pipe s
  rw [h]

/-- C8: both text normalizers are idempotent and total, map the empty string to
the empty string, fold the German diacritics to digraphs (ä→ae, ö→oe, ü→ue,
ß→ss), and `norm` is case-insensitive (invariant under uppercasing, shown both
in general and on "Blutabnahme"/"BLUTABNAHME"). -/
theorem normalizer_properties :
    (∀ s : JStr, norm (norm s) = norm s) ∧
    (∀ s : JStr, normalizeInput (normalizeInput s) = normalizeInput s) ∧
    norm [] = [] ∧
    normalizeInput [] = [] ∧
    (∀ s : JStr, norm (jsUpper s) = norm s) ∧
    norm (jstr "ä") = jstr "ae" ∧
    norm (jstr "ö") = jstr "oe" ∧
    norm (jstr "ü") = jstr "ue" ∧
    norm (jstr "ß") = jstr "ss" ∧
    norm (jstr "Blutabnahme") = norm (jstr "BLUTABNAHME") ∧
    normalizeInput (jstr "Blutabnähme") = jstr "blutabnaehme" :=
  ⟨norm_idem, normalizeInput_idem, rfl, rfl, norm_jsUpper, by decide, by decide, by decide,
    by decide, by decide, by decide⟩
